import Mathlib

/-!
Verification development for a low-latency trading stack (Rust sources).

The development shallowly embeds the Rust code of the repository:
pure functions become Lean functions, stateful methods become explicit
state-passing functions on structures mirroring the Rust structs, and the
standard-library `HashMap`s are modelled as association lists (`List (K × V)`)
with unique keys.  Machine integers are modelled as `Nat` (unsigned) and
`Int` (signed); `f64` values occurring in the feature engine are modelled as
exact rationals.  Rust's truncating `i64` division is `Int.tdiv`.
-/

section AssocList

variable {K : Type} [DecidableEq K] {β : Type} {γ : Type}

/-- Association-list lookup: the value of the first entry with the given key.
Models `HashMap::get`. -/
def alLookup (l : List (K × β)) (k : K) : Option β :=
  match l with
  | [] => none
  | (k', v) :: rest => if k' = k then some v else alLookup rest k

/-- Association-list insert-or-replace: replaces the first entry with the given
key, or appends a new entry.  Models `HashMap::insert` / `entry().or_insert`. -/
def alInsert (l : List (K × β)) (k : K) (v : β) : List (K × β) :=
  match l with
  | [] => [(k, v)]
  | (k', v') :: rest => if k' = k then (k, v) :: rest else (k', v') :: alInsert rest k v

/-- Association-list erase: removes the first entry with the given key.
Models `HashMap::remove`. -/
def alErase (l : List (K × β)) (k : K) : List (K × β) :=
  match l with
  | [] => []
  | (k', v') :: rest => if k' = k then rest else (k', v') :: alErase rest k

/-- The list of keys of an association list. -/
def alKeys (l : List (K × β)) : List K := l.map Prod.fst

/-- Sum of a `Nat`-valued weight over the entries of a list. -/
def entSum (f : K × β → Nat) (l : List (K × β)) : Nat := (l.map f).sum

theorem alLookup_insert_self (l : List (K × β)) (k : K) (v : β) :
    alLookup (alInsert l k v) k = some v := by
  induction l with
  | nil => simp [alInsert, alLookup]
  | cons hd tl ih =>
    obtain ⟨k', v'⟩ := hd
    by_cases h : k' = k <;> simp [alInsert, alLookup, h, ih]

theorem alLookup_insert_ne (l : List (K × β)) (k k' : K) (v : β) (h : k ≠ k') :
    alLookup (alInsert l k v) k' = alLookup l k' := by
  induction l with
  | nil => simp [alInsert, alLookup, h]
  | cons hd tl ih =>
    obtain ⟨k0, v0⟩ := hd
    by_cases h0 : k0 = k
    · subst h0
      simp [alInsert, alLookup, h]
    · simp only [alInsert, if_neg h0, alLookup]
      by_cases h1 : k0 = k' <;> simp [h1, ih]

theorem alLookup_erase_ne (l : List (K × β)) (k k' : K) (h : k ≠ k') :
    alLookup (alErase l k) k' = alLookup l k' := by
  induction l with
  | nil => simp [alErase]
  | cons hd tl ih =>
    obtain ⟨k0, v0⟩ := hd
    by_cases h0 : k0 = k
    · subst h0
      simp [alErase, alLookup, h]
    · simp only [alErase, if_neg h0, alLookup]
      by_cases h1 : k0 = k' <;> simp [h1, ih]

theorem alErase_sublist (l : List (K × β)) (k : K) : (alErase l k).Sublist l := by
  induction l with
  | nil => simp [alErase]
  | cons hd tl ih =>
    obtain ⟨k0, v0⟩ := hd
    by_cases h0 : k0 = k
    · simpa [alErase, h0] using List.sublist_cons_self (k0, v0) tl
    · simpa [alErase, h0] using ih.cons₂ (k0, v0)

theorem mem_of_mem_alErase {l : List (K × β)} {k : K} {e : K × β}
    (h : e ∈ alErase l k) : e ∈ l :=
  (alErase_sublist l k).mem h

theorem alLookup_eq_some_of_mem {l : List (K × β)} {k : K} {v : β}
    (hn : (alKeys l).Nodup) (h : (k, v) ∈ l) : alLookup l k = some v := by
  induction l with
  | nil => simp at h
  | cons hd tl ih =>
    obtain ⟨k0, v0⟩ := hd
    simp only [alKeys, List.map_cons, List.nodup_cons] at hn
    rcases List.mem_cons.mp h with h | h
    · obtain ⟨rfl, rfl⟩ := Prod.mk.injEq .. ▸ h
      simp [alLookup]
    · have hk : k0 ≠ k := by
        rintro rfl
        exact hn.1 (List.mem_map.mpr ⟨_, h, rfl⟩)
      simpa [alLookup, hk] using ih hn.2 h

theorem mem_of_alLookup_eq_some {l : List (K × β)} {k : K} {v : β}
    (h : alLookup l k = some v) : (k, v) ∈ l := by
  induction l with
  | nil => simp [alLookup] at h
  | cons hd tl ih =>
    obtain ⟨k0, v0⟩ := hd
    by_cases h0 : k0 = k
    · subst h0
      have h' : v0 = v := by simpa [alLookup] using h
      subst h'
      exact List.mem_cons_self ..
    · simp only [alLookup, if_neg h0] at h
      exact List.mem_cons_of_mem _ (ih h)

theorem not_mem_alKeys_of_lookup_none {l : List (K × β)} {k : K}
    (h : alLookup l k = none) : k ∉ alKeys l := by
  induction l with
  | nil => simp [alKeys]
  | cons hd tl ih =>
    obtain ⟨k0, v0⟩ := hd
    by_cases h0 : k0 = k
    · simp [alLookup, h0] at h
    · simp only [alLookup, if_neg h0] at h
      simp only [alKeys, List.map_cons, List.mem_cons]
      rintro (rfl | hm)
      · exact h0 rfl
      · exact ih h hm

theorem alInsert_of_lookup_none {l : List (K × β)} {k : K} (v : β)
    (h : alLookup l k = none) : alInsert l k v = l ++ [(k, v)] := by
  induction l with
  | nil => simp [alInsert]
  | cons hd tl ih =>
    obtain ⟨k0, v0⟩ := hd
    by_cases h0 : k0 = k
    · simp [alLookup, h0] at h
    · simp only [alLookup, if_neg h0] at h
      simp [alInsert, h0, ih h]

theorem mem_alInsert_cases {l : List (K × β)} {k : K} {v : β} {e : K × β}
    (h : e ∈ alInsert l k v) : e = (k, v) ∨ e ∈ l := by
  induction l with
  | nil => simpa [alInsert] using h
  | cons hd tl ih =>
    obtain ⟨k0, v0⟩ := hd
    by_cases h0 : k0 = k
    · subst h0
      rcases List.mem_cons.mp (by simpa [alInsert] using h) with h1 | h1
      · exact Or.inl h1
      · exact Or.inr (List.mem_cons_of_mem _ h1)
    · rcases List.mem_cons.mp (by simpa [alInsert, h0] using h) with h1 | h1
      · exact Or.inr (h1 ▸ List.mem_cons_self ..)
      · rcases ih h1 with h2 | h2
        · exact Or.inl h2
        · exact Or.inr (List.mem_cons_of_mem _ h2)

theorem alKeys_insert_nodup {l : List (K × β)} {k : K} {v : β}
    (hn : (alKeys l).Nodup) : (alKeys (alInsert l k v)).Nodup := by
  induction l with
  | nil => simp [alInsert, alKeys]
  | cons hd tl ih =>
    obtain ⟨k0, v0⟩ := hd
    simp only [alKeys, List.map_cons, List.nodup_cons] at hn
    by_cases h0 : k0 = k
    · subst h0
      simpa [alInsert, alKeys] using hn
    · have htl := ih hn.2
      simp only [alInsert, if_neg h0, alKeys, List.map_cons, List.nodup_cons]
      refine ⟨fun hm => ?_, htl⟩
      rcases List.mem_map.mp hm with ⟨e, he, rfl⟩
      rcases mem_alInsert_cases he with h1 | h1
      · exact h0 (by rw [h1])
      · exact hn.1 (List.mem_map.mpr ⟨_, h1, rfl⟩)

theorem not_mem_alErase_self {l : List (K × β)} {k : K}
    (hn : (alKeys l).Nodup) (v : β) : (k, v) ∉ alErase l k := by
  induction l with
  | nil => simp [alErase]
  | cons hd tl ih =>
    obtain ⟨k0, v0⟩ := hd
    simp only [alKeys, List.map_cons, List.nodup_cons] at hn
    by_cases h0 : k0 = k
    · subst h0
      simp only [alErase, if_pos rfl]
      intro hm
      exact hn.1 (List.mem_map.mpr ⟨_, hm, rfl⟩)
    · simp only [alErase, if_neg h0, List.mem_cons]
      rintro (h1 | h1)
      · exact h0 (congrArg Prod.fst h1).symm
      · exact ih hn.2 h1

theorem alLookup_isSome_insert {l : List (K × β)} {k : K}
    (hk : (alLookup l k).isSome) (k' : K) (v : β) :
    (alLookup (alInsert l k' v) k).isSome := by
  by_cases h : k' = k
  · subst h
    simp [alLookup_insert_self]
  · rwa [alLookup_insert_ne l k' k v h]

theorem entSum_insert_of_lookup_none {l : List (K × β)} {k : K} (v : β)
    (f : K × β → Nat) (h : alLookup l k = none) :
    entSum f (alInsert l k v) = entSum f l + f (k, v) := by
  rw [alInsert_of_lookup_none v h]
  simp [entSum]

theorem entSum_erase_of_lookup_some {l : List (K × β)} {k : K} {v : β}
    (f : K × β → Nat) (h : alLookup l k = some v) :
    entSum f (alErase l k) + f (k, v) = entSum f l := by
  induction l with
  | nil => simp [alLookup] at h
  | cons hd tl ih =>
    obtain ⟨k0, v0⟩ := hd
    by_cases h0 : k0 = k
    · subst h0
      have h' : v0 = v := by simpa [alLookup] using h
      subst h'
      simp only [entSum, List.map_cons, List.sum_cons]
      rw [show alErase ((k0, v0) :: tl) k0 = tl by simp [alErase]]
      omega
    · simp only [alLookup, if_neg h0] at h
      have := ih h
      simp only [alErase, if_neg h0, entSum, List.map_cons, List.sum_cons] at *
      omega

omit [DecidableEq K] in
theorem entSum_nil (f : K × β → Nat) : entSum f ([] : List (K × β)) = 0 := rfl

omit [DecidableEq K] in
theorem entSum_cons (f : K × β → Nat) (e : K × β) (l : List (K × β)) :
    entSum f (e :: l) = f e + entSum f l := by
  simp [entSum]

omit [DecidableEq K] in
theorem entSum_congr {l : List (K × β)} {f g : K × β → Nat}
    (h : ∀ e ∈ l, f e = g e) : entSum f l = entSum g l := by
  induction l with
  | nil => rfl
  | cons hd tl ih =>
    simp only [entSum, List.map_cons, List.sum_cons] at *
    rw [h hd (List.mem_cons_self ..), ih fun e he => h e (List.mem_cons_of_mem _ he)]

omit [DecidableEq K] in
theorem le_entSum_of_mem {l : List (K × β)} {f : K × β → Nat} {e : K × β}
    (h : e ∈ l) : f e ≤ entSum f l := by
  induction l with
  | nil => simp at h
  | cons hd tl ih =>
    rcases List.mem_cons.mp h with h1 | h1
    · subst h1
      simp only [entSum, List.map_cons, List.sum_cons]
      omega
    · have := ih h1
      simp only [entSum, List.map_cons, List.sum_cons] at *
      omega

omit [DecidableEq K] in
theorem entSum_add (l : List (K × β)) (f g : K × β → Nat) :
    entSum (fun e => f e + g e) l = entSum f l + entSum g l := by
  induction l with
  | nil => rfl
  | cons hd tl ih =>
    simp only [entSum, List.map_cons, List.sum_cons] at *
    omega

omit [DecidableEq K] in
theorem entSum_swap {A B : Type} (l1 : List (K × β)) (l2 : List (A × B))
    (h : (K × β) → (A × B) → Nat) :
    entSum (fun e => entSum (h e) l2) l1 = entSum (fun y => entSum (fun e => h e y) l1) l2 := by
  induction l1 with
  | nil =>
    rw [entSum_nil]
    rw [entSum_congr (g := fun _ => 0) (fun y _ => entSum_nil _)]
    induction l2 with
    | nil => rfl
    | cons hd tl ih => simpa [entSum] using ih
  | cons hd tl ih =>
    rw [entSum_cons, ih]
    have hcg : entSum (fun y => entSum (fun e => h e y) (hd :: tl)) l2
        = entSum (fun y => h hd y + entSum (fun e => h e y) tl) l2 :=
      entSum_congr fun y _ => entSum_cons _ _ _
    rw [hcg, entSum_add]

theorem alKeys_erase_sublist (l : List (K × β)) (k : K) :
    (alKeys (alErase l k)).Sublist (alKeys l) :=
  (alErase_sublist l k).map Prod.fst

theorem snd_map_erase_sublist (l : List (K × β)) (k : K) :
    ((alErase l k).map Prod.snd).Sublist (l.map Prod.snd) :=
  (alErase_sublist l k).map Prod.snd

omit [DecidableEq K] in
theorem entries_ne_of_snd_nodup {l : List (K × β)} (hn : (l.map Prod.snd).Nodup)
    {e1 e2 : K × β} (h1 : e1 ∈ l) (h2 : e2 ∈ l) (hne : e1 ≠ e2) : e1.2 ≠ e2.2 := by
  intro hsnd
  induction l with
  | nil => simp at h1
  | cons hd tl ih =>
    simp only [List.map_cons, List.nodup_cons] at hn
    rcases List.mem_cons.mp h1 with g1 | g1 <;> rcases List.mem_cons.mp h2 with g2 | g2
    · exact hne (g1.trans g2.symm)
    · exact hn.1 (g1 ▸ hsnd ▸ List.mem_map.mpr ⟨_, g2, rfl⟩)
    · exact hn.1 (g2 ▸ hsnd.symm ▸ List.mem_map.mpr ⟨_, g1, rfl⟩)
    · exact ih hn.2 g1 g2

end AssocList

/-! ## SPSC ring buffer (`common/src/lf_queue.rs`)

The queue is used by a single producer and a single consumer; the claims
quantify over sequential executions, so the model threads the state through
one operation at a time.  The two monotone `usize` counters are modelled as
`Nat` (they start at 0 and only increment; `wrapping_sub` coincides with
truncated subtraction since `head ≤ tail` throughout).  The `N`-slot buffer
of possibly-uninitialised cells is modelled by the association of written
indices to values. -/

/-- State of `LFQueue<T, N>`: buffer storage plus the producer (`tail`) and
consumer (`head`) counters. -/
structure LFQueue (α : Type) (N : Nat) where
  buffer : List (Nat × α)
  tail : Nat
  head : Nat
deriving DecidableEq, Repr

/-- `LFQueue::new()`: empty buffer, both counters zero. -/
def LFQueue.new (α : Type) (N : Nat) : LFQueue α N := ⟨[], 0, 0⟩

/-- `LFQueue::push`: fails (returning the item to the caller, modelled by the
`false` flag) iff `tail - head >= N`; otherwise writes the slot at
`tail & (N-1)` and publishes `tail + 1`. -/
def LFQueue.push {α : Type} {N : Nat} (q : LFQueue α N) (x : α) : LFQueue α N × Bool :=
  if N ≤ q.tail - q.head then (q, false)
  else ({ buffer := alInsert q.buffer (q.tail &&& (N - 1)) x,
          tail := q.tail + 1, head := q.head }, true)

/-- `LFQueue::pop`: fails iff `head = tail`; otherwise reads the slot at
`head & (N-1)` and publishes `head + 1`. -/
def LFQueue.pop {α : Type} {N : Nat} (q : LFQueue α N) : LFQueue α N × Option α :=
  if q.head = q.tail then (q, none)
  else ({ q with head := q.head + 1 }, alLookup q.buffer (q.head &&& (N - 1)))

/-- `LFQueue::len`: `tail - head`. -/
def LFQueue.len {α : Type} {N : Nat} (q : LFQueue α N) : Nat := q.tail - q.head

/-- An operation applied to a queue. -/
inductive QOp (α : Type)
  | push (x : α)
  | pop
deriving DecidableEq, Repr

/-- The observable outcome of one queue operation. -/
inductive QEvent (α : Type)
  | pushed (ok : Bool)
  | popped (r : Option α)
deriving DecidableEq, Repr

/-- Runs a sequence of operations on the ring, collecting the outcomes. -/
def runLF {α : Type} {N : Nat} : List (QOp α) → LFQueue α N → LFQueue α N × List (QEvent α)
  | [], q => (q, [])
  | QOp.push x :: ops, q =>
    let s := q.push x
    let r := runLF ops s.1
    (r.1, QEvent.pushed s.2 :: r.2)
  | QOp.pop :: ops, q =>
    let s := q.pop
    let r := runLF ops s.1
    (r.1, QEvent.popped s.2 :: r.2)

/-- Modelled from the spec: the abstract bounded FIFO queue (`push` fails iff
the queue holds `N` elements, `pop` fails iff it is empty, elements leave in
arrival order).  The ring is proved to refine this model. -/
def fifoPush {α : Type} (N : Nat) (l : List α) (x : α) : List α × Bool :=
  if N ≤ l.length then (l, false) else (l ++ [x], true)

/-- Abstract FIFO pop: the head of the list, if any. -/
def fifoPop {α : Type} : List α → List α × Option α
  | [] => ([], none)
  | x :: rest => (rest, some x)

/-- Runs a sequence of operations on the abstract bounded FIFO queue. -/
def runFifo {α : Type} (N : Nat) : List (QOp α) → List α → List α × List (QEvent α)
  | [], l => (l, [])
  | QOp.push x :: ops, l =>
    let s := fifoPush N l x
    let r := runFifo N ops s.1
    (r.1, QEvent.pushed s.2 :: r.2)
  | QOp.pop :: ops, l =>
    let s := fifoPop l
    let r := runFifo N ops s.1
    (r.1, QEvent.popped s.2 :: r.2)

/-- The coupling invariant between the ring state and the abstract queue:
the counters span exactly the queue's contents, and slot `(head + i) & (N-1)`
holds the `i`-th element. -/
def QRel {α : Type} {N : Nat} (q : LFQueue α N) (l : List α) : Prop :=
  q.head ≤ q.tail ∧ q.tail - q.head = l.length ∧ l.length ≤ N ∧
  ∀ i (h : i < l.length), alLookup q.buffer ((q.head + i) &&& (N - 1)) = some (l.get ⟨i, h⟩)

theorem mod_ne_of_lt_of_sub_lt {a b N : Nat} (hab : a < b) (hd : b - a < N) :
    a % N ≠ b % N := by
  intro h
  have hmod : Nat.ModEq N a b := h
  have hdvd : N ∣ b - a := (Nat.modEq_iff_dvd' (Nat.le_of_lt hab)).mp hmod
  have hpos : 0 < b - a := by omega
  have := Nat.le_of_dvd hpos hdvd
  omega

theorem QRel_push_step {α : Type} {N k : Nat} (hN : N = 2 ^ k) {q : LFQueue α N}
    {l : List α} (hr : QRel q l) (x : α) :
    QRel (q.push x).1 (fifoPush N l x).1 ∧ (q.push x).2 = (fifoPush N l x).2 := by
  obtain ⟨h1, h2, h3, h4⟩ := hr
  by_cases hfull : N ≤ q.tail - q.head
  · have hlen : N ≤ l.length := by omega
    simp only [LFQueue.push, if_pos hfull, fifoPush, if_pos hlen]
    exact ⟨⟨h1, h2, h3, h4⟩, by trivial⟩
  · have hlen : ¬ N ≤ l.length := by omega
    simp only [LFQueue.push, if_neg hfull, fifoPush, if_neg hlen]
    refine ⟨⟨?_, ?_, ?_, ?_⟩, by trivial⟩
    · show q.head ≤ q.tail + 1
      omega
    · show q.tail + 1 - q.head = (l ++ [x]).length
      rw [List.length_append]
      simp only [List.length_cons, List.length_nil]
      omega
    · show (l ++ [x]).length ≤ N
      rw [List.length_append]
      simp only [List.length_cons, List.length_nil]
      omega
    · intro i hi
      show alLookup (alInsert q.buffer (q.tail &&& (N - 1)) x) ((q.head + i) &&& (N - 1))
          = some ((l ++ [x]).get ⟨i, hi⟩)
      have hi' : i < l.length + 1 := by
        have := hi
        rw [List.length_append] at this
        simpa using this
      rcases Nat.lt_or_ge i l.length with hil | hil
      · have hkey : (q.tail &&& (N - 1)) ≠ ((q.head + i) &&& (N - 1)) := by
          subst hN
          rw [Nat.and_pow_two_sub_one_eq_mod, Nat.and_pow_two_sub_one_eq_mod]
          exact Ne.symm (mod_ne_of_lt_of_sub_lt (by omega) (by omega))
        rw [alLookup_insert_ne _ _ _ _ hkey, h4 i hil]
        congr 1
        simp [List.get_eq_getElem, List.getElem_append_left hil]
      · have hieq : i = l.length := by omega
        subst hieq
        have hidx : q.head + l.length = q.tail := by omega
        rw [hidx, alLookup_insert_self]
        congr 1
        simp [List.get_eq_getElem]

theorem QRel_pop_step {α : Type} {N k : Nat} (hN : N = 2 ^ k) {q : LFQueue α N}
    {l : List α} (hr : QRel q l) :
    QRel (q.pop).1 (fifoPop l).1 ∧ (q.pop).2 = (fifoPop l).2 := by
  obtain ⟨h1, h2, h3, h4⟩ := hr
  by_cases hempty : q.head = q.tail
  · have hlen : l.length = 0 := by omega
    have hl : l = [] := List.eq_nil_of_length_eq_zero hlen
    subst hl
    simp only [LFQueue.pop, if_pos hempty, fifoPop]
    exact ⟨⟨h1, h2, h3, h4⟩, by trivial⟩
  · have hlen : l.length ≠ 0 := by omega
    obtain ⟨y, rest, rfl⟩ : ∃ y rest, l = y :: rest := by
      cases l with
      | nil => simp at hlen
      | cons a b => exact ⟨a, b, rfl⟩
    simp only [List.length_cons] at h2 h3
    simp only [LFQueue.pop, if_neg hempty, fifoPop]
    constructor
    · refine ⟨?_, ?_, ?_, ?_⟩
      · show q.head + 1 ≤ q.tail
        omega
      · show q.tail - (q.head + 1) = rest.length
        omega
      · show rest.length ≤ N
        omega
      · intro i hi
        show alLookup q.buffer ((q.head + 1 + i) &&& (N - 1)) = some (rest.get ⟨i, hi⟩)
        have := h4 (i + 1) (by simp only [List.length_cons]; omega)
        rw [show q.head + 1 + i = q.head + (i + 1) by omega, this]
        rfl
    · show alLookup q.buffer (q.head &&& (N - 1)) = some y
      have := h4 0 (by simp only [List.length_cons]; omega)
      simpa using this

theorem runLF_refines {α : Type} {N k : Nat} (hN : N = 2 ^ k) :
    ∀ (ops : List (QOp α)) (q : LFQueue α N) (l : List α), QRel q l →
      (runLF ops q).2 = (runFifo N ops l).2 ∧ QRel (runLF ops q).1 (runFifo N ops l).1 := by
  intro ops
  induction ops with
  | nil => exact fun q l hr => ⟨rfl, hr⟩
  | cons op ops ih =>
    intro q l hr
    cases op with
    | push x =>
      have hs := QRel_push_step hN hr x
      have hrec := ih (q.push x).1 (fifoPush N l x).1 hs.1
      simp only [runLF, runFifo]
      exact ⟨by rw [hs.2, hrec.1], hrec.2⟩
    | pop =>
      have hs := QRel_pop_step hN hr
      have hrec := ih (q.pop).1 (fifoPop l).1 hs.1
      simp only [runLF, runFifo]
      exact ⟨by rw [hs.2, hrec.1], hrec.2⟩

/-- C5: for every sequence of push and pop operations executed sequentially on
an `LFQueue` of capacity `N` (a power of two), the queue behaves as the bounded
FIFO queue: identical success/failure outcomes (push fails iff `N` elements are
held, returning the item; pop fails iff empty) and the successful pops yield the
successfully pushed elements in push order; moreover the final lengths agree. -/
theorem C5_lfqueue_bounded_fifo {α : Type} {N k : Nat} (hN : N = 2 ^ k)
    (ops : List (QOp α)) :
    (runLF ops (LFQueue.new α N)).2 = (runFifo N ops []).2 ∧
    (runLF ops (LFQueue.new α N)).1.len = (runFifo N ops []).1.length := by
  have h0 : QRel (LFQueue.new α N) ([] : List α) := by
    refine ⟨Nat.le_refl _, rfl, Nat.zero_le _, ?_⟩
    intro i hi
    simp at hi
  have h := runLF_refines hN ops (LFQueue.new α N) [] h0
  exact ⟨h.1, by have := h.2.2.1; simpa [LFQueue.len] using this⟩

/-- Witness for C5 at `N = 4 = 2^2` with a concrete operation sequence that
exercises a failing push (full), a failing pop (empty) and wrap-around. -/
theorem C5_lfqueue_bounded_fifo_witness :
    (4 : Nat) = 2 ^ 2 ∧
    ((runLF [QOp.push 10, QOp.push 20, QOp.push 30, QOp.push 40, QOp.push 50,
             QOp.pop, QOp.pop, QOp.push 60, QOp.pop, QOp.pop, QOp.pop, QOp.pop]
        (LFQueue.new Nat 4)).2 =
      (runFifo 4 [QOp.push 10, QOp.push 20, QOp.push 30, QOp.push 40, QOp.push 50,
             QOp.pop, QOp.pop, QOp.push 60, QOp.pop, QOp.pop, QOp.pop, QOp.pop] []).2 ∧
     (runLF [QOp.push 10, QOp.push 20, QOp.push 30, QOp.push 40, QOp.push 50,
             QOp.pop, QOp.pop, QOp.push 60, QOp.pop, QOp.pop, QOp.pop, QOp.pop]
        (LFQueue.new Nat 4)).1.len =
      (runFifo 4 [QOp.push 10, QOp.push 20, QOp.push 30, QOp.push 40, QOp.push 50,
             QOp.pop, QOp.pop, QOp.push 60, QOp.pop, QOp.pop, QOp.pop, QOp.pop] []).1.length) :=
  ⟨by decide, C5_lfqueue_bounded_fifo (k := 2) (by decide) _⟩

/-! ## Wire protocol (`exchange/src/protocol.rs`)

The three `#[repr(C, packed)]` records are encoded as their little-endian
memory image: the concatenation of the fields' little-endian bytes, with no
padding.  Decoding is a length check plus reinterpretation.  Bytes are `Nat`
values below 256; unsigned fields are `Nat`, the signed `side: i8` and
`price: i64` fields are `Int` encoded in two's complement. -/

/-- The `w` little-endian bytes of an unsigned value. -/
def leBytes : Nat → Nat → List Nat
  | 0, _ => []
  | w + 1, n => (n % 256) :: leBytes w (n / 256)

/-- The unsigned value of a little-endian byte list. -/
def leVal : List Nat → Nat
  | [] => 0
  | b :: rest => b + 256 * leVal rest

theorem leBytes_length (w n : Nat) : (leBytes w n).length = w := by
  induction w generalizing n with
  | zero => rfl
  | succ w ih => simp [leBytes, ih]

theorem leVal_leBytes {w n : Nat} (h : n < 256 ^ w) : leVal (leBytes w n) = n := by
  induction w generalizing n with
  | zero =>
    simp only [Nat.pow_zero, Nat.lt_one_iff] at h
    simp [h, leBytes, leVal]
  | succ w ih =>
    have hdiv : n / 256 < 256 ^ w := by
      apply Nat.div_lt_of_lt_mul
      rw [Nat.pow_succ] at h
      omega
    simp only [leBytes, leVal, ih hdiv]
    omega

/-- Two's-complement little-endian encoding of a signed `8*w`-bit value. -/
def encodeIntLE (w : Nat) (z : Int) : List Nat := leBytes w (z % (2 ^ (8 * w))).toNat

/-- Two's-complement little-endian decoding of a signed `8*w`-bit value. -/
def decodeIntLE (w : Nat) (bs : List Nat) : Int :=
  let n := leVal bs
  if n < 2 ^ (8 * w - 1) then (n : Int) else (n : Int) - 2 ^ (8 * w)

theorem encodeIntLE_length (w : Nat) (z : Int) : (encodeIntLE w z).length = w :=
  leBytes_length ..

theorem pow256_eq (w : Nat) : (256 : Nat) ^ w = 2 ^ (8 * w) := by
  rw [show (256 : Nat) = 2 ^ 8 from rfl, ← Nat.pow_mul]

theorem int_toNat_two_pow (m : Nat) : ((2 : Int) ^ m).toNat = 2 ^ m := by
  have h : ((2 : Int) ^ m) = ((2 ^ m : Nat) : Int) := by push_cast; ring
  rw [h, Int.toNat_natCast]

theorem decodeIntLE_encodeIntLE {w : Nat} (hw : 0 < w) {z : Int}
    (hlo : -(2 ^ (8 * w - 1)) ≤ z) (hhi : z < 2 ^ (8 * w - 1)) :
    decodeIntLE w (encodeIntLE w z) = z := by
  have hsplit : (2 : Int) ^ (8 * w) = 2 ^ (8 * w - 1) * 2 := by
    rw [← pow_succ]
    congr 1
    omega
  have hA : ((2 : Int) ^ (8 * w - 1)).toNat = 2 ^ (8 * w - 1) := int_toNat_two_pow _
  have hB : ((2 : Int) ^ (8 * w)).toNat = 2 ^ (8 * w) := int_toNat_two_pow _
  have hMpos : (0 : Int) < 2 ^ (8 * w) := by positivity
  have hmod : z % (2 ^ (8 * w)) = if 0 ≤ z then z else z + 2 ^ (8 * w) := by
    by_cases hz : 0 ≤ z
    · rw [if_pos hz]
      exact Int.emod_eq_of_lt hz (by omega)
    · rw [if_neg hz]
      have h1 : (z + 2 ^ (8 * w)) % (2 ^ (8 * w)) = z % (2 ^ (8 * w)) := by
        have := Int.add_mul_emod_self_left (a := z) (b := (2 : Int) ^ (8 * w)) (c := 1)
        simpa using this
      rw [← h1]
      exact Int.emod_eq_of_lt (by omega) (by omega)
  by_cases hz : 0 ≤ z
  · rw [if_pos hz] at hmod
    have htn : (z % (2 ^ (8 * w))).toNat = z.toNat := by rw [hmod]
    have hbound : z.toNat < 256 ^ w := by
      rw [pow256_eq]
      omega
    simp only [decodeIntLE, encodeIntLE, htn, leVal_leBytes hbound]
    rw [if_pos (by omega)]
    omega
  · rw [if_neg hz] at hmod
    have htn : (z % (2 ^ (8 * w))).toNat = (z + 2 ^ (8 * w)).toNat := by rw [hmod]
    have hbound : (z + 2 ^ (8 * w)).toNat < 256 ^ w := by
      rw [pow256_eq]
      omega
    simp only [decodeIntLE, encodeIntLE, htn, leVal_leBytes hbound]
    rw [if_neg (by omega)]
    omega

/-- Extracting a middle segment of a concatenation by offset and width. -/
theorem seg_extract (pre mid post : List Nat) :
    ((pre ++ mid ++ post).drop pre.length).take mid.length = mid := by
  rw [List.append_assoc, List.drop_left, List.take_left]

theorem seg_at {pre mid : List Nat} (post : List Nat) {k w : Nat}
    (hk : pre.length = k) (hw : mid.length = w) :
    ((pre ++ mid ++ post).drop k).take w = mid := by
  subst hk
  subst hw
  exact seg_extract pre mid post

theorem pow256_one : (256 : Nat) ^ 1 = 2 ^ 8 := by norm_num
theorem pow256_four : (256 : Nat) ^ 4 = 2 ^ 32 := by norm_num
theorem pow256_eight : (256 : Nat) ^ 8 = 2 ^ 64 := by norm_num

/-- `ClientRequest` (`protocol.rs`): `msg_type:u8`, `client_id:u32`,
`ticker_id:u32`, `order_id:u64`, `side:i8`, `price:i64`, `qty:u32`. -/
structure ClientRequest where
  msg_type : Nat
  client_id : Nat
  ticker_id : Nat
  order_id : Nat
  side : Int
  price : Int
  qty : Nat
deriving DecidableEq, Repr

/-- `ClientResponse` (`protocol.rs`): `msg_type:u8`, `client_id:u32`,
`ticker_id:u32`, `client_order_id:u64`, `market_order_id:u64`, `side:i8`,
`price:i64`, `exec_qty:u32`, `leaves_qty:u32`. -/
structure ClientResponse where
  msg_type : Nat
  client_id : Nat
  ticker_id : Nat
  client_order_id : Nat
  market_order_id : Nat
  side : Int
  price : Int
  exec_qty : Nat
  leaves_qty : Nat
deriving DecidableEq, Repr

/-- `MarketUpdate` (`protocol.rs`): `msg_type:u8`, `ticker_id:u32`,
`order_id:u64`, `side:i8`, `price:i64`, `qty:u32`, `priority:u64`. -/
structure MarketUpdate where
  msg_type : Nat
  ticker_id : Nat
  order_id : Nat
  side : Int
  price : Int
  qty : Nat
  priority : Nat
deriving DecidableEq, Repr

/-- `size_of::<ClientRequest>()` for the packed layout: the sum of the field
widths 1+4+4+8+1+8+4. -/
def CLIENT_REQUEST_SIZE : Nat := 1 + 4 + 4 + 8 + 1 + 8 + 4

/-- `size_of::<ClientResponse>()` for the packed layout: 1+4+4+8+8+1+8+4+4. -/
def CLIENT_RESPONSE_SIZE : Nat := 1 + 4 + 4 + 8 + 8 + 1 + 8 + 4 + 4

/-- `size_of::<MarketUpdate>()` for the packed layout: 1+4+8+1+8+4+8. -/
def MARKET_UPDATE_SIZE : Nat := 1 + 4 + 8 + 1 + 8 + 4 + 8

/-- A `ClientRequest` whose fields are in the ranges of the Rust field types. -/
def ClientRequest.legal (r : ClientRequest) : Prop :=
  r.msg_type < 2 ^ 8 ∧ r.client_id < 2 ^ 32 ∧ r.ticker_id < 2 ^ 32 ∧
  r.order_id < 2 ^ 64 ∧ -(2 ^ 7) ≤ r.side ∧ r.side < 2 ^ 7 ∧
  -(2 ^ 63) ≤ r.price ∧ r.price < 2 ^ 63 ∧ r.qty < 2 ^ 32

/-- A `ClientResponse` whose fields are in the ranges of the Rust field types. -/
def ClientResponse.legal (r : ClientResponse) : Prop :=
  r.msg_type < 2 ^ 8 ∧ r.client_id < 2 ^ 32 ∧ r.ticker_id < 2 ^ 32 ∧
  r.client_order_id < 2 ^ 64 ∧ r.market_order_id < 2 ^ 64 ∧
  -(2 ^ 7) ≤ r.side ∧ r.side < 2 ^ 7 ∧ -(2 ^ 63) ≤ r.price ∧ r.price < 2 ^ 63 ∧
  r.exec_qty < 2 ^ 32 ∧ r.leaves_qty < 2 ^ 32

/-- A `MarketUpdate` whose fields are in the ranges of the Rust field types. -/
def MarketUpdate.legal (r : MarketUpdate) : Prop :=
  r.msg_type < 2 ^ 8 ∧ r.ticker_id < 2 ^ 32 ∧ r.order_id < 2 ^ 64 ∧
  -(2 ^ 7) ≤ r.side ∧ r.side < 2 ^ 7 ∧ -(2 ^ 63) ≤ r.price ∧ r.price < 2 ^ 63 ∧
  r.qty < 2 ^ 32 ∧ r.priority < 2 ^ 64

/-- `as_bytes` on the packed `ClientRequest`: the little-endian memory image. -/
def ClientRequest.encode (r : ClientRequest) : List Nat :=
  leBytes 1 r.msg_type ++ leBytes 4 r.client_id ++ leBytes 4 r.ticker_id ++
  leBytes 8 r.order_id ++ encodeIntLE 1 r.side ++ encodeIntLE 8 r.price ++ leBytes 4 r.qty

/-- `ClientRequest::from_bytes`: length check plus reinterpretation of the
little-endian image. -/
def ClientRequest.decode (bs : List Nat) : Option ClientRequest :=
  if bs.length = CLIENT_REQUEST_SIZE then
    some { msg_type := leVal (bs.take 1)
         , client_id := leVal ((bs.drop 1).take 4)
         , ticker_id := leVal ((bs.drop 5).take 4)
         , order_id := leVal ((bs.drop 9).take 8)
         , side := decodeIntLE 1 ((bs.drop 17).take 1)
         , price := decodeIntLE 8 ((bs.drop 18).take 8)
         , qty := leVal ((bs.drop 26).take 4) }
  else none

/-- `as_bytes` on the packed `ClientResponse`. -/
def ClientResponse.encode (r : ClientResponse) : List Nat :=
  leBytes 1 r.msg_type ++ leBytes 4 r.client_id ++ leBytes 4 r.ticker_id ++
  leBytes 8 r.client_order_id ++ leBytes 8 r.market_order_id ++
  encodeIntLE 1 r.side ++ encodeIntLE 8 r.price ++ leBytes 4 r.exec_qty ++
  leBytes 4 r.leaves_qty

/-- `ClientResponse::from_bytes`. -/
def ClientResponse.decode (bs : List Nat) : Option ClientResponse :=
  if bs.length = CLIENT_RESPONSE_SIZE then
    some { msg_type := leVal (bs.take 1)
         , client_id := leVal ((bs.drop 1).take 4)
         , ticker_id := leVal ((bs.drop 5).take 4)
         , client_order_id := leVal ((bs.drop 9).take 8)
         , market_order_id := leVal ((bs.drop 17).take 8)
         , side := decodeIntLE 1 ((bs.drop 25).take 1)
         , price := decodeIntLE 8 ((bs.drop 26).take 8)
         , exec_qty := leVal ((bs.drop 34).take 4)
         , leaves_qty := leVal ((bs.drop 38).take 4) }
  else none

/-- `as_bytes` on the packed `MarketUpdate`. -/
def MarketUpdate.encode (r : MarketUpdate) : List Nat :=
  leBytes 1 r.msg_type ++ leBytes 4 r.ticker_id ++ leBytes 8 r.order_id ++
  encodeIntLE 1 r.side ++ encodeIntLE 8 r.price ++ leBytes 4 r.qty ++
  leBytes 8 r.priority

/-- `MarketUpdate::from_bytes`. -/
def MarketUpdate.decode (bs : List Nat) : Option MarketUpdate :=
  if bs.length = MARKET_UPDATE_SIZE then
    some { msg_type := leVal (bs.take 1)
         , ticker_id := leVal ((bs.drop 1).take 4)
         , order_id := leVal ((bs.drop 5).take 8)
         , side := decodeIntLE 1 ((bs.drop 13).take 1)
         , price := decodeIntLE 8 ((bs.drop 14).take 8)
         , qty := leVal ((bs.drop 22).take 4)
         , priority := leVal ((bs.drop 26).take 8) }
  else none

theorem clientRequest_encode_length (r : ClientRequest) :
    r.encode.length = CLIENT_REQUEST_SIZE := by
  simp [ClientRequest.encode, CLIENT_REQUEST_SIZE, leBytes_length, encodeIntLE_length]

theorem clientResponse_encode_length (r : ClientResponse) :
    r.encode.length = CLIENT_RESPONSE_SIZE := by
  simp [ClientResponse.encode, CLIENT_RESPONSE_SIZE, leBytes_length, encodeIntLE_length]

theorem marketUpdate_encode_length (r : MarketUpdate) :
    r.encode.length = MARKET_UPDATE_SIZE := by
  simp [MarketUpdate.encode, MARKET_UPDATE_SIZE, leBytes_length, encodeIntLE_length]

theorem clientRequest_decode_encode {r : ClientRequest} (h : r.legal) :
    ClientRequest.decode r.encode = some r := by
  obtain ⟨hm, hcid, htid, hoid, hsl, hsh, hpl, hph, hq⟩ := h
  have fmsg : leVal (r.encode.take 1) = r.msg_type := by
    simp [ClientRequest.encode, leBytes, leVal]
    omega
  have fcid : leVal ((r.encode.drop 1).take 4) = r.client_id := by
    have hseg : (r.encode.drop 1).take 4 = leBytes 4 r.client_id := by
      rw [show r.encode = leBytes 1 r.msg_type ++ leBytes 4 r.client_id ++
          (leBytes 4 r.ticker_id ++ leBytes 8 r.order_id ++
           encodeIntLE 1 r.side ++ encodeIntLE 8 r.price ++ leBytes 4 r.qty) from by
        simp [ClientRequest.encode]]
      exact seg_at _ (leBytes_length ..) (leBytes_length ..)
    rw [hseg, leVal_leBytes (pow256_four ▸ hcid)]
  have ftid : leVal ((r.encode.drop 5).take 4) = r.ticker_id := by
    have hseg : (r.encode.drop 5).take 4 = leBytes 4 r.ticker_id := by
      rw [show r.encode = (leBytes 1 r.msg_type ++ leBytes 4 r.client_id) ++
          leBytes 4 r.ticker_id ++ (leBytes 8 r.order_id ++
           encodeIntLE 1 r.side ++ encodeIntLE 8 r.price ++ leBytes 4 r.qty) from by
        simp [ClientRequest.encode]]
      exact seg_at _ (by simp [leBytes_length]) (leBytes_length ..)
    rw [hseg, leVal_leBytes (pow256_four ▸ htid)]
  have foid : leVal ((r.encode.drop 9).take 8) = r.order_id := by
    have hseg : (r.encode.drop 9).take 8 = leBytes 8 r.order_id := by
      rw [show r.encode = (leBytes 1 r.msg_type ++ leBytes 4 r.client_id ++
          leBytes 4 r.ticker_id) ++ leBytes 8 r.order_id ++
          (encodeIntLE 1 r.side ++ encodeIntLE 8 r.price ++ leBytes 4 r.qty) from by
        simp [ClientRequest.encode]]
      exact seg_at _ (by simp [leBytes_length]) (leBytes_length ..)
    rw [hseg, leVal_leBytes (pow256_eight ▸ hoid)]
  have fside : decodeIntLE 1 ((r.encode.drop 17).take 1) = r.side := by
    have hseg : (r.encode.drop 17).take 1 = encodeIntLE 1 r.side := by
      rw [show r.encode = (leBytes 1 r.msg_type ++ leBytes 4 r.client_id ++
          leBytes 4 r.ticker_id ++ leBytes 8 r.order_id) ++ encodeIntLE 1 r.side ++
          (encodeIntLE 8 r.price ++ leBytes 4 r.qty) from by
        simp [ClientRequest.encode]]
      exact seg_at _ (by simp [leBytes_length]) (encodeIntLE_length ..)
    rw [hseg]
    exact decodeIntLE_encodeIntLE (by norm_num) (by simpa using hsl) (by simpa using hsh)
  have fprice : decodeIntLE 8 ((r.encode.drop 18).take 8) = r.price := by
    have hseg : (r.encode.drop 18).take 8 = encodeIntLE 8 r.price := by
      rw [show r.encode = (leBytes 1 r.msg_type ++ leBytes 4 r.client_id ++
          leBytes 4 r.ticker_id ++ leBytes 8 r.order_id ++ encodeIntLE 1 r.side) ++
          encodeIntLE 8 r.price ++ leBytes 4 r.qty from by
        simp [ClientRequest.encode]]
      exact seg_at _ (by simp [leBytes_length, encodeIntLE_length]) (encodeIntLE_length ..)
    rw [hseg]
    exact decodeIntLE_encodeIntLE (by norm_num) (by simpa using hpl) (by simpa using hph)
  have fqty : leVal ((r.encode.drop 26).take 4) = r.qty := by
    have hseg : (r.encode.drop 26).take 4 = leBytes 4 r.qty := by
      rw [show r.encode = (leBytes 1 r.msg_type ++ leBytes 4 r.client_id ++
          leBytes 4 r.ticker_id ++ leBytes 8 r.order_id ++ encodeIntLE 1 r.side ++
          encodeIntLE 8 r.price) ++ leBytes 4 r.qty ++ ([] : List Nat) from by
        simp [ClientRequest.encode]]
      exact seg_at _ (by simp [leBytes_length, encodeIntLE_length]) (leBytes_length ..)
    rw [hseg, leVal_leBytes (pow256_four ▸ hq)]
  simp only [ClientRequest.decode, if_pos (clientRequest_encode_length r)]
  rw [fmsg, fcid, ftid, foid, fside, fprice, fqty]

theorem clientResponse_decode_encode {r : ClientResponse} (h : r.legal) :
    ClientResponse.decode r.encode = some r := by
  obtain ⟨hm, hcid, htid, hcoid, hmoid, hsl, hsh, hpl, hph, he, hl⟩ := h
  have fmsg : leVal (r.encode.take 1) = r.msg_type := by
    simp [ClientResponse.encode, leBytes, leVal]
    omega
  have fcid : leVal ((r.encode.drop 1).take 4) = r.client_id := by
    have hseg : (r.encode.drop 1).take 4 = leBytes 4 r.client_id := by
      rw [show r.encode = leBytes 1 r.msg_type ++ leBytes 4 r.client_id ++
          (leBytes 4 r.ticker_id ++ leBytes 8 r.client_order_id ++
           leBytes 8 r.market_order_id ++ encodeIntLE 1 r.side ++ encodeIntLE 8 r.price ++
           leBytes 4 r.exec_qty ++ leBytes 4 r.leaves_qty) from by
        simp [ClientResponse.encode]]
      exact seg_at _ (leBytes_length ..) (leBytes_length ..)
    rw [hseg, leVal_leBytes (pow256_four ▸ hcid)]
  have ftid : leVal ((r.encode.drop 5).take 4) = r.ticker_id := by
    have hseg : (r.encode.drop 5).take 4 = leBytes 4 r.ticker_id := by
      rw [show r.encode = (leBytes 1 r.msg_type ++ leBytes 4 r.client_id) ++
          leBytes 4 r.ticker_id ++ (leBytes 8 r.client_order_id ++
           leBytes 8 r.market_order_id ++ encodeIntLE 1 r.side ++ encodeIntLE 8 r.price ++
           leBytes 4 r.exec_qty ++ leBytes 4 r.leaves_qty) from by
        simp [ClientResponse.encode]]
      exact seg_at _ (by simp [leBytes_length]) (leBytes_length ..)
    rw [hseg, leVal_leBytes (pow256_four ▸ htid)]
  have fcoid : leVal ((r.encode.drop 9).take 8) = r.client_order_id := by
    have hseg : (r.encode.drop 9).take 8 = leBytes 8 r.client_order_id := by
      rw [show r.encode = (leBytes 1 r.msg_type ++ leBytes 4 r.client_id ++
          leBytes 4 r.ticker_id) ++ leBytes 8 r.client_order_id ++
          (leBytes 8 r.market_order_id ++ encodeIntLE 1 r.side ++ encodeIntLE 8 r.price ++
           leBytes 4 r.exec_qty ++ leBytes 4 r.leaves_qty) from by
        simp [ClientResponse.encode]]
      exact seg_at _ (by simp [leBytes_length]) (leBytes_length ..)
    rw [hseg, leVal_leBytes (pow256_eight ▸ hcoid)]
  have fmoid : leVal ((r.encode.drop 17).take 8) = r.market_order_id := by
    have hseg : (r.encode.drop 17).take 8 = leBytes 8 r.market_order_id := by
      rw [show r.encode = (leBytes 1 r.msg_type ++ leBytes 4 r.client_id ++
          leBytes 4 r.ticker_id ++ leBytes 8 r.client_order_id) ++
          leBytes 8 r.market_order_id ++ (encodeIntLE 1 r.side ++ encodeIntLE 8 r.price ++
           leBytes 4 r.exec_qty ++ leBytes 4 r.leaves_qty) from by
        simp [ClientResponse.encode]]
      exact seg_at _ (by simp [leBytes_length]) (leBytes_length ..)
    rw [hseg, leVal_leBytes (pow256_eight ▸ hmoid)]
  have fside : decodeIntLE 1 ((r.encode.drop 25).take 1) = r.side := by
    have hseg : (r.encode.drop 25).take 1 = encodeIntLE 1 r.side := by
      rw [show r.encode = (leBytes 1 r.msg_type ++ leBytes 4 r.client_id ++
          leBytes 4 r.ticker_id ++ leBytes 8 r.client_order_id ++
          leBytes 8 r.market_order_id) ++ encodeIntLE 1 r.side ++
          (encodeIntLE 8 r.price ++ leBytes 4 r.exec_qty ++ leBytes 4 r.leaves_qty) from by
        simp [ClientResponse.encode]]
      exact seg_at _ (by simp [leBytes_length]) (encodeIntLE_length ..)
    rw [hseg]
    exact decodeIntLE_encodeIntLE (by norm_num) (by simpa using hsl) (by simpa using hsh)
  have fprice : decodeIntLE 8 ((r.encode.drop 26).take 8) = r.price := by
    have hseg : (r.encode.drop 26).take 8 = encodeIntLE 8 r.price := by
      rw [show r.encode = (leBytes 1 r.msg_type ++ leBytes 4 r.client_id ++
          leBytes 4 r.ticker_id ++ leBytes 8 r.client_order_id ++
          leBytes 8 r.market_order_id ++ encodeIntLE 1 r.side) ++ encodeIntLE 8 r.price ++
          (leBytes 4 r.exec_qty ++ leBytes 4 r.leaves_qty) from by
        simp [ClientResponse.encode]]
      exact seg_at _ (by simp [leBytes_length, encodeIntLE_length]) (encodeIntLE_length ..)
    rw [hseg]
    exact decodeIntLE_encodeIntLE (by norm_num) (by simpa using hpl) (by simpa using hph)
  have fexec : leVal ((r.encode.drop 34).take 4) = r.exec_qty := by
    have hseg : (r.encode.drop 34).take 4 = leBytes 4 r.exec_qty := by
      rw [show r.encode = (leBytes 1 r.msg_type ++ leBytes 4 r.client_id ++
          leBytes 4 r.ticker_id ++ leBytes 8 r.client_order_id ++
          leBytes 8 r.market_order_id ++ encodeIntLE 1 r.side ++ encodeIntLE 8 r.price) ++
          leBytes 4 r.exec_qty ++ leBytes 4 r.leaves_qty from by
        simp [ClientResponse.encode]]
      exact seg_at _ (by simp [leBytes_length, encodeIntLE_length]) (leBytes_length ..)
    rw [hseg, leVal_leBytes (pow256_four ▸ he)]
  have fleaves : leVal ((r.encode.drop 38).take 4) = r.leaves_qty := by
    have hseg : (r.encode.drop 38).take 4 = leBytes 4 r.leaves_qty := by
      rw [show r.encode = (leBytes 1 r.msg_type ++ leBytes 4 r.client_id ++
          leBytes 4 r.ticker_id ++ leBytes 8 r.client_order_id ++
          leBytes 8 r.market_order_id ++ encodeIntLE 1 r.side ++ encodeIntLE 8 r.price ++
          leBytes 4 r.exec_qty) ++ leBytes 4 r.leaves_qty ++ ([] : List Nat) from by
        simp [ClientResponse.encode]]
      exact seg_at _ (by simp [leBytes_length, encodeIntLE_length]) (leBytes_length ..)
    rw [hseg, leVal_leBytes (pow256_four ▸ hl)]
  simp only [ClientResponse.decode, if_pos (clientResponse_encode_length r)]
  rw [fmsg, fcid, ftid, fcoid, fmoid, fside, fprice, fexec, fleaves]

theorem marketUpdate_decode_encode {r : MarketUpdate} (h : r.legal) :
    MarketUpdate.decode r.encode = some r := by
  obtain ⟨hm, htid, hoid, hsl, hsh, hpl, hph, hq, hp⟩ := h
  have fmsg : leVal (r.encode.take 1) = r.msg_type := by
    simp [MarketUpdate.encode, leBytes, leVal]
    omega
  have ftid : leVal ((r.encode.drop 1).take 4) = r.ticker_id := by
    have hseg : (r.encode.drop 1).take 4 = leBytes 4 r.ticker_id := by
      rw [show r.encode = leBytes 1 r.msg_type ++ leBytes 4 r.ticker_id ++
          (leBytes 8 r.order_id ++ encodeIntLE 1 r.side ++ encodeIntLE 8 r.price ++
           leBytes 4 r.qty ++ leBytes 8 r.priority) from by
        simp [MarketUpdate.encode]]
      exact seg_at _ (leBytes_length ..) (leBytes_length ..)
    rw [hseg, leVal_leBytes (pow256_four ▸ htid)]
  have foid : leVal ((r.encode.drop 5).take 8) = r.order_id := by
    have hseg : (r.encode.drop 5).take 8 = leBytes 8 r.order_id := by
      rw [show r.encode = (leBytes 1 r.msg_type ++ leBytes 4 r.ticker_id) ++
          leBytes 8 r.order_id ++ (encodeIntLE 1 r.side ++ encodeIntLE 8 r.price ++
           leBytes 4 r.qty ++ leBytes 8 r.priority) from by
        simp [MarketUpdate.encode]]
      exact seg_at _ (by simp [leBytes_length]) (leBytes_length ..)
    rw [hseg, leVal_leBytes (pow256_eight ▸ hoid)]
  have fside : decodeIntLE 1 ((r.encode.drop 13).take 1) = r.side := by
    have hseg : (r.encode.drop 13).take 1 = encodeIntLE 1 r.side := by
      rw [show r.encode = (leBytes 1 r.msg_type ++ leBytes 4 r.ticker_id ++
          leBytes 8 r.order_id) ++ encodeIntLE 1 r.side ++
          (encodeIntLE 8 r.price ++ leBytes 4 r.qty ++ leBytes 8 r.priority) from by
        simp [MarketUpdate.encode]]
      exact seg_at _ (by simp [leBytes_length]) (encodeIntLE_length ..)
    rw [hseg]
    exact decodeIntLE_encodeIntLE (by norm_num) (by simpa using hsl) (by simpa using hsh)
  have fprice : decodeIntLE 8 ((r.encode.drop 14).take 8) = r.price := by
    have hseg : (r.encode.drop 14).take 8 = encodeIntLE 8 r.price := by
      rw [show r.encode = (leBytes 1 r.msg_type ++ leBytes 4 r.ticker_id ++
          leBytes 8 r.order_id ++ encodeIntLE 1 r.side) ++ encodeIntLE 8 r.price ++
          (leBytes 4 r.qty ++ leBytes 8 r.priority) from by
        simp [MarketUpdate.encode]]
      exact seg_at _ (by simp [leBytes_length, encodeIntLE_length]) (encodeIntLE_length ..)
    rw [hseg]
    exact decodeIntLE_encodeIntLE (by norm_num) (by simpa using hpl) (by simpa using hph)
  have fqty : leVal ((r.encode.drop 22).take 4) = r.qty := by
    have hseg : (r.encode.drop 22).take 4 = leBytes 4 r.qty := by
      rw [show r.encode = (leBytes 1 r.msg_type ++ leBytes 4 r.ticker_id ++
          leBytes 8 r.order_id ++ encodeIntLE 1 r.side ++ encodeIntLE 8 r.price) ++
          leBytes 4 r.qty ++ leBytes 8 r.priority from by
        simp [MarketUpdate.encode]]
      exact seg_at _ (by simp [leBytes_length, encodeIntLE_length]) (leBytes_length ..)
    rw [hseg, leVal_leBytes (pow256_four ▸ hq)]
  have fprio : leVal ((r.encode.drop 26).take 8) = r.priority := by
    have hseg : (r.encode.drop 26).take 8 = leBytes 8 r.priority := by
      rw [show r.encode = (leBytes 1 r.msg_type ++ leBytes 4 r.ticker_id ++
          leBytes 8 r.order_id ++ encodeIntLE 1 r.side ++ encodeIntLE 8 r.price ++
          leBytes 4 r.qty) ++ leBytes 8 r.priority ++ ([] : List Nat) from by
        simp [MarketUpdate.encode]]
      exact seg_at _ (by simp [leBytes_length, encodeIntLE_length]) (leBytes_length ..)
    rw [hseg, leVal_leBytes (pow256_eight ▸ hp)]
  simp only [MarketUpdate.decode, if_pos (marketUpdate_encode_length r)]
  rw [fmsg, ftid, foid, fside, fprice, fqty, fprio]

/-- C6: the three wire records have exactly the sizes the spec states
(ClientRequest 30 bytes, ClientResponse 42 bytes, MarketUpdate 34 bytes; the
encodings are the packed little-endian images with no padding), and decoding
the byte encoding of any legal record yields the record again. -/
theorem C6_wire_sizes_and_roundtrip :
    CLIENT_REQUEST_SIZE = 30 ∧ CLIENT_RESPONSE_SIZE = 42 ∧ MARKET_UPDATE_SIZE = 34 ∧
    (∀ r : ClientRequest, r.legal →
      r.encode.length = 30 ∧ ClientRequest.decode r.encode = some r) ∧
    (∀ r : ClientResponse, r.legal →
      r.encode.length = 42 ∧ ClientResponse.decode r.encode = some r) ∧
    (∀ r : MarketUpdate, r.legal →
      r.encode.length = 34 ∧ MarketUpdate.decode r.encode = some r) := by
  refine ⟨rfl, rfl, rfl, ?_, ?_, ?_⟩
  · exact fun r h => ⟨clientRequest_encode_length r, clientRequest_decode_encode h⟩
  · exact fun r h => ⟨clientResponse_encode_length r, clientResponse_decode_encode h⟩
  · exact fun r h => ⟨marketUpdate_encode_length r, marketUpdate_decode_encode h⟩

/-- Witness for C6 at the concrete records used by the repository's own
round-trip tests. -/
theorem C6_wire_sizes_and_roundtrip_witness :
    (ClientRequest.legal ⟨1, 100, 1, 12345, 1, 10050, 100⟩ ∧
      ClientRequest.decode (ClientRequest.encode ⟨1, 100, 1, 12345, 1, 10050, 100⟩) =
        some ⟨1, 100, 1, 12345, 1, 10050, 100⟩) ∧
    (ClientResponse.legal ⟨1, 100, 1, 12345, 67890, 1, 10050, 0, 100⟩ ∧
      ClientResponse.decode (ClientResponse.encode ⟨1, 100, 1, 12345, 67890, 1, 10050, 0, 100⟩) =
        some ⟨1, 100, 1, 12345, 67890, 1, 10050, 0, 100⟩) ∧
    (MarketUpdate.legal ⟨1, 1, 12345, 1, 10050, 100, 99999⟩ ∧
      MarketUpdate.decode (MarketUpdate.encode ⟨1, 1, 12345, 1, 10050, 100, 99999⟩) =
        some ⟨1, 1, 12345, 1, 10050, 100, 99999⟩) :=
  ⟨⟨by simp [ClientRequest.legal], (C6_wire_sizes_and_roundtrip.2.2.2.1 _
      (by simp [ClientRequest.legal])).2⟩,
   ⟨by simp [ClientResponse.legal], (C6_wire_sizes_and_roundtrip.2.2.2.2.1 _
      (by simp [ClientResponse.legal])).2⟩,
   ⟨by simp [MarketUpdate.legal], (C6_wire_sizes_and_roundtrip.2.2.2.2.2 _
      (by simp [MarketUpdate.legal])).2⟩⟩

/-! ## Side (`common/src/types.rs`) and position keeping (`trading/src/position.rs`) -/

/-- `Side`: `Buy = 1`, `Sell = -1`. -/
inductive Side
  | Buy
  | Sell
deriving DecidableEq, Repr

/-- `Side as i8` / `as_sign`: the integer sign view of a side. -/
def Side.sign : Side → Int
  | Side.Buy => 1
  | Side.Sell => -1

/-- `Position` (`trading/src/position.rs`): per-ticker position and P&L
state.  `i64` fields are `Int`, `u32`/`u64` fields are `Nat`. -/
structure Position where
  ticker_id : Nat
  position : Int
  open_buy_qty : Nat
  open_sell_qty : Nat
  volume_traded : Nat
  realized_pnl : Int
  unrealized_pnl : Int
  avg_open_price : Int
  last_price : Int
deriving DecidableEq, Repr

/-- `Position::new`. -/
def Position.new (ticker_id : Nat) : Position :=
  ⟨ticker_id, 0, 0, 0, 0, 0, 0, 0, 0⟩

/-- `Position::update_unrealized_pnl` (private helper): recompute the
unrealized P&L from the position, last price and average open price. -/
def Position.update_unrealized_pnl (p : Position) : Position :=
  if p.position = 0 then
    { p with unrealized_pnl := 0 }
  else if p.position > 0 then
    { p with unrealized_pnl := (p.last_price - p.avg_open_price) * p.position }
  else
    { p with unrealized_pnl := (p.avg_open_price - p.last_price) * (-p.position) }

/-- `Position::on_fill(side, qty, price)`: volume, last price, realized P&L,
average open price and position updates, followed by the unrealized-P&L
recomputation.  Rust's truncating `i64` division is `Int.tdiv`; `i64::abs` is
`Int.natAbs` (cast back to `Int` where the source stays in `i64`). -/
def Position.on_fill (p : Position) (side : Side) (qty : Nat) (price : Int) : Position :=
  let signed_qty : Int := match side with
    | Side.Buy => (qty : Int)
    | Side.Sell => -(qty : Int)
  let old_position := p.position
  let new_position := old_position + signed_qty
  let avgReal : Int × Int :=
    if old_position = 0 then
      (price, p.realized_pnl)
    else if (old_position > 0 ∧ signed_qty < 0) ∨ (old_position < 0 ∧ signed_qty > 0) then
      let closing_qty : Int := (min old_position.natAbs signed_qty.natAbs : Nat)
      let pnl_per_unit : Int :=
        if old_position > 0 then price - p.avg_open_price else p.avg_open_price - price
      let realized := p.realized_pnl + pnl_per_unit * closing_qty
      let avg :=
        if new_position ≠ 0 ∧ ¬ ((new_position > 0) ↔ (old_position > 0)) then price
        else p.avg_open_price
      (avg, realized)
    else
      let total_cost := p.avg_open_price * (old_position.natAbs : Int) +
        price * (signed_qty.natAbs : Int)
      (Int.tdiv total_cost (new_position.natAbs : Int), p.realized_pnl)
  Position.update_unrealized_pnl
    { p with
      volume_traded := p.volume_traded + qty
      last_price := price
      avg_open_price := avgReal.1
      realized_pnl := avgReal.2
      position := new_position }

/-- `Position::update_market_price`. -/
def Position.update_market_price (p : Position) (price : Int) : Position :=
  Position.update_unrealized_pnl { p with last_price := price }

/-- `Position::total_pnl`: realized plus unrealized. -/
def Position.total_pnl (p : Position) : Int := p.realized_pnl + p.unrealized_pnl

/-- `Position::max_long_exposure`: position plus pending buys. -/
def Position.max_long_exposure (p : Position) : Int := p.position + (p.open_buy_qty : Int)

/-- `Position::max_short_exposure`: position minus pending sells. -/
def Position.max_short_exposure (p : Position) : Int := p.position - (p.open_sell_qty : Int)

/-- Applies a list of `(side, qty, price)` fills in order. -/
def applyFills (p : Position) (fills : List (Side × Nat × Int)) : Position :=
  fills.foldl (fun p f => p.on_fill f.1 f.2.1 f.2.2) p

/-- The signed quantity of a fill. -/
def fillSigned (f : Side × Nat × Int) : Int :=
  match f.1 with
  | Side.Buy => (f.2.1 : Int)
  | Side.Sell => -(f.2.1 : Int)

theorem update_unrealized_pnl_position (p : Position) :
    p.update_unrealized_pnl.position = p.position ∧
    p.update_unrealized_pnl.volume_traded = p.volume_traded := by
  unfold Position.update_unrealized_pnl
  split
  · exact ⟨rfl, rfl⟩
  · split
    · exact ⟨rfl, rfl⟩
    · exact ⟨rfl, rfl⟩

theorem on_fill_position_volume (p : Position) (side : Side) (qty : Nat) (price : Int) :
    (p.on_fill side qty price).position = p.position + fillSigned (side, qty, price) ∧
    (p.on_fill side qty price).volume_traded = p.volume_traded + qty := by
  constructor
  · show (Position.update_unrealized_pnl _).position = _
    rw [(update_unrealized_pnl_position _).1]
    cases side <;> simp [fillSigned]
  · show (Position.update_unrealized_pnl _).volume_traded = _
    rw [(update_unrealized_pnl_position _).2]

theorem applyFills_identity (fills : List (Side × Nat × Int)) (p : Position) :
    (applyFills p fills).position = p.position + (fills.map fillSigned).sum ∧
    (applyFills p fills).volume_traded = p.volume_traded + (fills.map (fun f => f.2.1)).sum := by
  induction fills generalizing p with
  | nil => simp [applyFills]
  | cons f rest ih =>
    obtain ⟨s, q, px⟩ := f
    have hstep := on_fill_position_volume p s q px
    have hrec := ih (p.on_fill s q px)
    simp only [applyFills, List.foldl_cons] at hrec ⊢
    constructor
    · rw [hrec.1, hstep.1]
      simp only [List.map_cons, List.sum_cons]
      ring
    · rw [hrec.2, hstep.2]
      simp only [List.map_cons, List.sum_cons]
      omega

/-- C7: after any sequence of fills starting from flat, the position equals
the sum of signed quantities and the traded volume equals the sum of absolute
quantities; and the concrete S5 scenario (fills `(Buy,100,10000)` then
`(Sell,50,10100)` followed by `update_market_price 10050`) yields position 50,
volume 150, realized 5000, unrealized 2500, total 7500. -/
theorem C7_position_identity :
    (∀ (t : Nat) (fills : List (Side × Nat × Int)),
      (applyFills (Position.new t) fills).position = (fills.map fillSigned).sum ∧
      (applyFills (Position.new t) fills).volume_traded =
        (fills.map (fun f => f.2.1)).sum) ∧
    ((((Position.new 1).on_fill Side.Buy 100 10000).on_fill Side.Sell 50
        10100).update_market_price 10050).position = 50 ∧
    ((((Position.new 1).on_fill Side.Buy 100 10000).on_fill Side.Sell 50
        10100).update_market_price 10050).volume_traded = 150 ∧
    ((((Position.new 1).on_fill Side.Buy 100 10000).on_fill Side.Sell 50
        10100).update_market_price 10050).realized_pnl = 5000 ∧
    ((((Position.new 1).on_fill Side.Buy 100 10000).on_fill Side.Sell 50
        10100).update_market_price 10050).unrealized_pnl = 2500 ∧
    ((((Position.new 1).on_fill Side.Buy 100 10000).on_fill Side.Sell 50
        10100).update_market_price 10050).total_pnl = 7500 := by
  refine ⟨fun t fills => ?_, by decide, by decide, by decide, by decide, by decide⟩
  have h := applyFills_identity fills (Position.new t)
  simpa [Position.new] using h

/-! ## Risk manager (`trading/src/risk.rs`) -/

/-- Result of a pre-trade risk check. -/
inductive RiskCheckResult
  | Allowed
  | OrderTooLarge
  | PositionTooLarge
  | LossTooLarge
  | OpenOrdersTooMany
deriving DecidableEq, Repr

/-- `RiskLimits`: per-ticker limits (`max_order_qty: u32`,
`max_position: i64`, `max_loss: i64`, `max_open_orders: u32`). -/
structure RiskLimits where
  max_order_qty : Nat
  max_position : Int
  max_loss : Int
  max_open_orders : Nat
deriving DecidableEq, Repr

/-- `RiskManager`: per-ticker limits with a system default. -/
structure RiskManager where
  limits : List (Nat × RiskLimits)
  default_limits : RiskLimits

/-- `RiskManager::get_limits`: the ticker's limits, or the default. -/
def RiskManager.get_limits (rm : RiskManager) (ticker_id : Nat) : RiskLimits :=
  match alLookup rm.limits ticker_id with
  | some l => l
  | none => rm.default_limits

/-- `RiskManager::check_order(position, side, qty, _price)`: evaluates, in
order, the order-size gate, the projected-position gate and the loss gate. -/
def RiskManager.check_order (rm : RiskManager) (position : Position) (side : Side)
    (qty : Nat) (_price : Int) : RiskCheckResult :=
  let limits := rm.get_limits position.ticker_id
  if qty > limits.max_order_qty then RiskCheckResult.OrderTooLarge
  else
    let projected_position : Int := match side with
      | Side.Buy => position.max_long_exposure + (qty : Int)
      | Side.Sell => position.max_short_exposure - (qty : Int)
    if (projected_position.natAbs : Int) > limits.max_position then
      RiskCheckResult.PositionTooLarge
    else if position.total_pnl < -limits.max_loss then RiskCheckResult.LossTooLarge
    else RiskCheckResult.Allowed

/-- C9: `check_order` is monotone in the limits: if it allows an order under
some limits, it also allows it under limits whose `max_order_qty`,
`max_position` and `max_loss` are each at least as large; tightening them can
only turn `Allowed` into a rejection. -/
theorem C9_risk_monotone (rm1 rm2 : RiskManager) (position : Position) (side : Side)
    (qty : Nat) (price : Int)
    (hq : (rm1.get_limits position.ticker_id).max_order_qty ≤
      (rm2.get_limits position.ticker_id).max_order_qty)
    (hp : (rm1.get_limits position.ticker_id).max_position ≤
      (rm2.get_limits position.ticker_id).max_position)
    (hl : (rm1.get_limits position.ticker_id).max_loss ≤
      (rm2.get_limits position.ticker_id).max_loss)
    (h : rm1.check_order position side qty price = RiskCheckResult.Allowed) :
    rm2.check_order position side qty price = RiskCheckResult.Allowed := by
  unfold RiskManager.check_order at h ⊢
  set l1 := rm1.get_limits position.ticker_id
  set l2 := rm2.get_limits position.ticker_id
  by_cases h1 : qty > l1.max_order_qty
  · simp [h1] at h
  · rw [if_neg h1] at h
    rw [if_neg (by omega)]
    cases side
    all_goals
      simp only at h ⊢
      split at h
      · exact absurd h (by simp)
      · split at h
        · exact absurd h (by simp)
        · rename_i hc1 hc2
          rw [if_neg (by omega), if_neg (by omega)]

/-- Witness for C9: a concrete order allowed under tight limits stays allowed
when every limit is loosened. -/
theorem C9_risk_monotone_witness :
    (RiskManager.mk [] ⟨100, 1000, 100000, 100⟩).check_order (Position.new 1)
      Side.Buy 10 0 = RiskCheckResult.Allowed ∧
    (RiskManager.mk [] ⟨200, 2000, 200000, 100⟩).check_order (Position.new 1)
      Side.Buy 10 0 = RiskCheckResult.Allowed :=
  ⟨by decide, C9_risk_monotone (RiskManager.mk [] ⟨100, 1000, 100000, 100⟩)
    (RiskManager.mk [] ⟨200, 2000, 200000, 100⟩) (Position.new 1) Side.Buy 10 0
    (by decide) (by decide) (by decide) (by decide)⟩

/-! ## Feature engine (`trading/src/features.rs`, BBO from
`trading/src/market_data.rs`)

`f64` arithmetic is modelled by exact rationals; `f64::round` (round half away
from zero) is `rustRound`, `f64::clamp` is `clampQ`. -/

/-- `INVALID_PRICE = i64::MAX` (`common/src/types.rs`). -/
def INVALID_PRICE : Int := 2 ^ 63 - 1

/-- `BBO`: best bid/offer for one ticker. -/
structure BBO where
  bid_price : Int
  bid_qty : Nat
  ask_price : Int
  ask_qty : Nat
deriving DecidableEq, Repr

/-- `BBO::has_bid`. -/
def BBO.has_bid (b : BBO) : Bool := decide (b.bid_price ≠ INVALID_PRICE) && decide (0 < b.bid_qty)

/-- `BBO::has_ask`. -/
def BBO.has_ask (b : BBO) : Bool := decide (b.ask_price ≠ INVALID_PRICE) && decide (0 < b.ask_qty)

/-- `BBO::is_valid`: both sides present with positive quantity. -/
def BBO.is_valid (b : BBO) : Bool := b.has_bid && b.has_ask

/-- `TickerFeatures`: derived metrics for one ticker. -/
structure TickerFeatures where
  ticker_id : Nat
  fair_value : Int
  spread : Int
  mid_price : Int
  imbalance : ℚ
  trade_signal : ℚ
deriving DecidableEq, Repr

/-- `TickerFeatures::new`. -/
def TickerFeatures.new (ticker_id : Nat) : TickerFeatures := ⟨ticker_id, 0, 0, 0, 0, 0⟩

/-- `TickerFeatures::is_valid`: positive mid price and fair value. -/
def TickerFeatures.is_valid (f : TickerFeatures) : Bool :=
  decide (0 < f.mid_price) && decide (0 < f.fair_value)

/-- `f64::clamp(lo, hi)`. -/
def clampQ (x lo hi : ℚ) : ℚ := if x < lo then lo else if x > hi then hi else x

/-- `f64::round`: round half away from zero. -/
def rustRound (x : ℚ) : Int := if 0 ≤ x then ⌊x + 1 / 2⌋ else -⌊-x + 1 / 2⌋

/-- `FeatureEngine::calculate_imbalance`:
`(bid_qty - ask_qty) / (bid_qty + ask_qty)`, or 0 when the total is 0. -/
def calculate_imbalance (b : BBO) : ℚ :=
  let bid_qty : ℚ := (b.bid_qty : ℚ)
  let ask_qty : ℚ := (b.ask_qty : ℚ)
  let total_qty := bid_qty + ask_qty
  if total_qty = 0 then 0 else (bid_qty - ask_qty) / total_qty

/-- `FeatureEngine::calculate_trade_signal_from_features`: 0 when the features
are invalid or the spread is non-positive; otherwise the clamped weighted
combination of the normalized fair-value deviation and the imbalance. -/
def calculate_trade_signal_from_features (f : TickerFeatures) : ℚ :=
  if ¬ f.is_valid ∨ f.spread ≤ 0 then 0
  else
    let fv_deviation : ℚ := ((f.fair_value - f.mid_price : Int) : ℚ)
    let spread_f64 : ℚ := (f.spread : ℚ)
    let fv_signal := clampQ (fv_deviation / spread_f64) (-1) 1
    let combined_signal := 7 / 10 * fv_signal + 3 / 10 * f.imbalance
    clampQ combined_signal (-1) 1

/-- `FeatureEngine::on_bbo_update` for one ticker's feature state: ignores
invalid BBOs, otherwise updates mid price, EMA fair value (initialised to mid
on first observation), spread, imbalance and the trade signal.  `α` is the
engine's `fair_value_alpha`. -/
def onBboUpdate (α : ℚ) (f : TickerFeatures) (b : BBO) : TickerFeatures :=
  if ¬ b.is_valid then f
  else
    let mid := Int.tdiv (b.bid_price + b.ask_price) 2
    let f1 := { f with mid_price := mid }
    let fv := if f1.fair_value = 0 then mid
      else rustRound (α * (mid : ℚ) + (1 - α) * (f1.fair_value : ℚ))
    let f2 := { f1 with fair_value := fv }
    let f3 := { f2 with spread := b.ask_price - b.bid_price }
    let f4 := { f3 with imbalance := calculate_imbalance b }
    { f4 with trade_signal := calculate_trade_signal_from_features f4 }

/-- The trade-signal formula exactly as the spec sentence states it:
`fv_sig = clamp((fair_value - mid)/spread, -1, 1)` when `spread > 0`, else 0,
and `trade_signal = clamp(0.7 * fv_sig + 0.3 * imbalance, -1, 1)` - carrying
the imbalance term even at zero spread. -/
def specTradeSignal (f : TickerFeatures) : ℚ :=
  let fv_sig : ℚ :=
    if f.spread > 0 then clampQ (((f.fair_value - f.mid_price : Int) : ℚ) / ((f.spread : Int) : ℚ)) (-1) 1
    else 0
  clampQ (7 / 10 * fv_sig + 3 / 10 * f.imbalance) (-1) 1

/-- C8 counterexample: for the fully valid BBO `(bid=100, bid_qty=100,
ask=100, ask_qty=50)` (zero spread, imbalance 1/3) processed from a fresh
feature state with the default `α = 1/10`, the code's trade signal is 0 while
the claim's formula `clamp(0.7*fv_sig + 0.3*imbalance)` yields 1/10: at zero
spread the code drops the imbalance term. -/
theorem C8_counterexample :
    (BBO.is_valid ⟨100, 100, 100, 50⟩ = true) ∧
    (onBboUpdate (1 / 10) (TickerFeatures.new 1) ⟨100, 100, 100, 50⟩).trade_signal = 0 ∧
    specTradeSignal (onBboUpdate (1 / 10) (TickerFeatures.new 1) ⟨100, 100, 100, 50⟩) = 1 / 10 ∧
    (onBboUpdate (1 / 10) (TickerFeatures.new 1) ⟨100, 100, 100, 50⟩).trade_signal ≠
      specTradeSignal (onBboUpdate (1 / 10) (TickerFeatures.new 1) ⟨100, 100, 100, 50⟩) := by
  have hvalid : BBO.is_valid ⟨100, 100, 100, 50⟩ = true := by
    simp [BBO.is_valid, BBO.has_bid, BBO.has_ask, INVALID_PRICE]
  have hmid : Int.tdiv (100 + 100) 2 = 100 := by decide
  have hpost : onBboUpdate (1 / 10) (TickerFeatures.new 1) ⟨100, 100, 100, 50⟩ =
      { ticker_id := 1, fair_value := 100, spread := 0, mid_price := 100,
        imbalance := 1 / 3, trade_signal := 0 } := by
    rw [onBboUpdate, if_neg (by simp [hvalid])]
    simp only [TickerFeatures.new, hmid]
    norm_num [calculate_imbalance, calculate_trade_signal_from_features,
      TickerFeatures.is_valid]
  refine ⟨hvalid, by rw [hpost], by rw [hpost]; norm_num [specTradeSignal, clampQ], ?_⟩
  rw [hpost]
  norm_num [specTradeSignal, clampQ]

/-- C8 (amended): for every fully valid BBO with positive bid and ask prices
processed by `on_bbo_update` (with `α ∈ [0,1]` and a nonnegative prior fair
value), the resulting `trade_signal` equals
`clamp(0.7*fv_sig + 0.3*imbalance, -1, 1)` with
`fv_sig = clamp((fair_value-mid)/spread, -1, 1)` when the resulting spread is
positive, and equals 0 when the spread is not positive (the imbalance term is
dropped at zero spread). -/
theorem C8_trade_signal_amended (α : ℚ) (f : TickerFeatures) (b : BBO)
    (hα0 : 0 ≤ α) (hα1 : α ≤ 1) (hb : b.is_valid = true)
    (hbid : 0 < b.bid_price) (hask : 0 < b.ask_price) (hfv : 0 ≤ f.fair_value) :
    (onBboUpdate α f b).trade_signal =
      if 0 < (onBboUpdate α f b).spread then specTradeSignal (onBboUpdate α f b)
      else 0 := by
  have hmid : 1 ≤ Int.tdiv (b.bid_price + b.ask_price) 2 := by
    rw [Int.tdiv_eq_ediv (by omega) (by norm_num)]
    rw [Int.le_ediv_iff_mul_le (by norm_num)]
    omega
  set mid := Int.tdiv (b.bid_price + b.ask_price) 2 with hmiddef
  set FV := (if f.fair_value = 0 then mid
    else rustRound (α * (mid : ℚ) + (1 - α) * (f.fair_value : ℚ))) with hFVdef
  have hfv1 : 1 ≤ FV := by
    rw [hFVdef]
    split
    · exact hmid
    · rename_i hne
      have hf1 : (1 : ℚ) ≤ (f.fair_value : ℚ) := by
        have h1 : (1 : Int) ≤ f.fair_value := by omega
        exact_mod_cast h1
      have hm1 : (1 : ℚ) ≤ (mid : ℚ) := by exact_mod_cast hmid
      have hx : (1 : ℚ) ≤ α * (mid : ℚ) + (1 - α) * (f.fair_value : ℚ) := by
        have h1 : α * 1 ≤ α * (mid : ℚ) := mul_le_mul_of_nonneg_left hm1 hα0
        have h2 : (1 - α) * 1 ≤ (1 - α) * (f.fair_value : ℚ) :=
          mul_le_mul_of_nonneg_left hf1 (by linarith)
        nlinarith
      rw [rustRound, if_pos (by linarith)]
      rw [Int.le_floor]
      push_cast
      linarith
  have hpost : onBboUpdate α f b =
      { ticker_id := f.ticker_id, fair_value := FV,
        spread := b.ask_price - b.bid_price, mid_price := mid,
        imbalance := calculate_imbalance b,
        trade_signal := calculate_trade_signal_from_features
          { ticker_id := f.ticker_id, fair_value := FV,
            spread := b.ask_price - b.bid_price, mid_price := mid,
            imbalance := calculate_imbalance b,
            trade_signal := f.trade_signal } } := by
    rw [onBboUpdate, if_neg (by simp [hb])]
  rw [hpost]
  simp only []
  by_cases hs : 0 < b.ask_price - b.bid_price
  · rw [if_pos hs]
    have hvalid : TickerFeatures.is_valid
        { ticker_id := f.ticker_id, fair_value := FV,
          spread := b.ask_price - b.bid_price, mid_price := mid,
          imbalance := calculate_imbalance b,
          trade_signal := f.trade_signal } = true := by
      simp only [TickerFeatures.is_valid]
      simp only [Bool.and_eq_true, decide_eq_true_eq]
      omega
    rw [calculate_trade_signal_from_features, if_neg (by simp [hvalid]; omega)]
    rw [specTradeSignal]
    simp only []
    rw [if_pos hs]
  · rw [if_neg hs]
    rw [calculate_trade_signal_from_features, if_pos (Or.inr (by simp; omega))]

/-- Witness for the amended C8 at a concrete positive-spread BBO processed
from a fresh feature state with `α = 1`. -/
theorem C8_trade_signal_amended_witness :
    (0 : ℚ) ≤ 1 ∧ (1 : ℚ) ≤ 1 ∧
    BBO.is_valid ⟨10000, 100, 10100, 50⟩ = true ∧
    (onBboUpdate 1 (TickerFeatures.new 1) ⟨10000, 100, 10100, 50⟩).trade_signal =
      (if 0 < (onBboUpdate 1 (TickerFeatures.new 1) ⟨10000, 100, 10100, 50⟩).spread
       then specTradeSignal (onBboUpdate 1 (TickerFeatures.new 1) ⟨10000, 100, 10100, 50⟩)
       else 0) :=
  ⟨by decide, by decide, by decide,
   C8_trade_signal_amended 1 (TickerFeatures.new 1) ⟨10000, 100, 10100, 50⟩
     (by decide) (by decide) (by decide) (by decide) (by decide) (by decide)⟩

/-! ## Memory pool (`common/src/mem_pool.rs`) and order book
(`exchange/src/order_book.rs`)

The pool's `N` uninitialised slots plus LIFO free stack are modelled by an
association of written indices to values plus the free-index stack (top at the
head).  `MemPool::new`/`new_boxed` fill the free array with `0..N` and set the
stack pointer to `N`, so the first allocation pops index `N-1`: the initial
stack is `[N-1, ..., 0]`. -/

/-- The initial free stack `[n-1, n-2, ..., 0]` (top first). -/
def initFree : Nat → List Nat
  | 0 => []
  | n + 1 => n :: initFree n

/-- `MemPool<T, N>`: free stack plus written slot contents. -/
structure MemPool (T : Type) (N : Nat) where
  free_list : List Nat
  storage : List (Nat × T)
deriving DecidableEq, Repr

/-- `MemPool::new_boxed()`: all `N` slots free, nothing written. -/
def MemPool.new (T : Type) (N : Nat) : MemPool T N := ⟨initFree N, []⟩

/-- `MemPool::allocate`: pops the top of the free stack. -/
def MemPool.allocate {T : Type} {N : Nat} (p : MemPool T N) :
    Option (Nat × MemPool T N) :=
  match p.free_list with
  | [] => none
  | index :: rest => some (index, { p with free_list := rest })

/-- `MemPool::get_by_index`: bounds-checked slot access (the contents of the
slot as last written; an unwritten slot has no defined contents). -/
def MemPool.get_by_index {T : Type} {N : Nat} (p : MemPool T N) (index : Nat) :
    Option T :=
  if index < N then alLookup p.storage index else none

/-- A write through `get_mut`/`get_by_index`: replaces the slot contents. -/
def MemPool.write {T : Type} {N : Nat} (p : MemPool T N) (index : Nat) (v : T) :
    MemPool T N :=
  { p with storage := alInsert p.storage index v }

/-- Modelled from the spec: `deallocate_by_index`, called by
`OrderBook::cancel_order` (step 9), is not among the sources at hand (only its
caller is); spec section 4.2 specifies deallocation as pushing the index back
onto the free stack. -/
def MemPool.deallocate_by_index {T : Type} {N : Nat} (p : MemPool T N)
    (index : Nat) : MemPool T N :=
  { p with free_list := index :: p.free_list }

/-- `Order` (`order_book.rs`): an order resident in the book's pool, with
doubly-linked-list indices for the price-level FIFO chain. -/
structure Order where
  order_id : Nat
  client_id : Nat
  ticker_id : Nat
  side : Side
  price : Int
  qty : Nat
  priority : Nat
  prev_idx : Option Nat
  next_idx : Option Nat
deriving DecidableEq, Repr

/-- `PriceLevel`: aggregate state of one price level. -/
structure PriceLevel where
  price : Int
  total_qty : Nat
  head_idx : Option Nat
  tail_idx : Option Nat
  order_count : Nat
deriving DecidableEq, Repr

/-- `PriceLevel::new`. -/
def PriceLevel.new (price : Int) : PriceLevel := ⟨price, 0, none, none, 0⟩

/-- The order pool capacity used by `OrderBook` (`MemPool<Order, 65536>`). -/
def poolCap : Nat := 65536

/-- `OrderBook`: price levels per side, id-to-slot index, order pool and the
monotone priority counter. -/
structure OrderBook where
  ticker_id : Nat
  bid_levels : List (Int × PriceLevel)
  ask_levels : List (Int × PriceLevel)
  order_map : List (Nat × Nat)
  order_pool : MemPool Order poolCap
  next_priority : Nat
deriving DecidableEq, Repr

/-- `OrderBook::new`. -/
def OrderBook.new (ticker_id : Nat) : OrderBook :=
  ⟨ticker_id, [], [], [], MemPool.new Order poolCap, 1⟩

/-- The side's level map (`bid_levels` for `Buy`, `ask_levels` for `Sell`). -/
def sideLevels (b : OrderBook) : Side → List (Int × PriceLevel)
  | Side.Buy => b.bid_levels
  | Side.Sell => b.ask_levels

/-- Writes back the side's level map. -/
def setSideLevels (b : OrderBook) : Side → List (Int × PriceLevel) → OrderBook
  | Side.Buy, l => { b with bid_levels := l }
  | Side.Sell, l => { b with ask_levels := l }

/-- `OrderBook::add_order`: rejects duplicate ids, allocates a slot, writes
the order (priority from the monotone counter), appends at the level's tail
and updates the level stats and the id map.

The source's loop that was meant to set the old tail's `next` pointer
performs no write (it only `break`s; the computed raw-pointer reference is
never stored through), and the second loop after the `order_map` insert is
likewise write-free - so when the level already had a tail, only the new
slot's `prev_idx` and the level's `tail_idx` are updated. -/
def OrderBook.add_order (b : OrderBook) (client_id order_id : Nat) (side : Side)
    (price : Int) (qty : Nat) : Option Nat × OrderBook :=
  if (alLookup b.order_map order_id).isSome then (none, b)
  else
    match b.order_pool.allocate with
    | none => (none, b)
    | some (new_idx, pool1) =>
      let priority := b.next_priority
      let ord : Order := ⟨order_id, client_id, b.ticker_id, side, price, qty,
        priority, none, none⟩
      let pool2 := pool1.write new_idx ord
      let level := match alLookup (sideLevels b side) price with
        | some l => l
        | none => PriceLevel.new price
      let poolLevel : MemPool Order poolCap × PriceLevel :=
        match level.tail_idx with
        | some tail_idx =>
          (pool2.write new_idx { ord with prev_idx := some tail_idx },
           { level with tail_idx := some new_idx })
        | none =>
          (pool2, { level with head_idx := some new_idx, tail_idx := some new_idx })
      let level2 := { poolLevel.2 with
        total_qty := poolLevel.2.total_qty + qty
        order_count := poolLevel.2.order_count + 1 }
      let b1 := setSideLevels b side (alInsert (sideLevels b side) price level2)
      let b2 := { b1 with
        order_map := alInsert b1.order_map order_id new_idx
        order_pool := poolLevel.1
        next_priority := b.next_priority + 1 }
      (some new_idx, b2)

/-- The conditional neighbour-link write in `cancel_order` step 6: when the
link target exists, read the slot through `get_by_index` and write it back
with the link field updated; otherwise leave the pool untouched. -/
def linkWrite (pool : MemPool Order poolCap) (target : Option Nat)
    (f : Order → Order) : MemPool Order poolCap :=
  match target with
  | some t =>
    match pool.get_by_index t with
    | some target_order => pool.write t (f target_order)
    | none => pool
  | none => pool

/-- `OrderBook::cancel_order`: removes the id from the map, unlinks the order
from its level's chain, updates the level stats (erasing an emptied level) and
frees the pool slot, returning a copy of the removed order (taken before the
link updates).  The early-return (`?`) paths after the map removal leave the
map already mutated, as in the source. -/
def OrderBook.cancel_order (b : OrderBook) (order_id : Nat) :
    Option Order × OrderBook :=
  match alLookup b.order_map order_id with
  | none => (none, b)
  | some pool_idx =>
    let b1 := { b with order_map := alErase b.order_map order_id }
    match b1.order_pool.get_by_index pool_idx with
    | none => (none, b1)
    | some order =>
      let prev_idx := order.prev_idx
      let next_idx := order.next_idx
      let order_side := order.side
      let order_price := order.price
      let order_qty := order.qty
      match alLookup (sideLevels b1 order_side) order_price with
      | none => (none, b1)
      | some level =>
        let poolA := linkWrite b1.order_pool prev_idx
          (fun prev_order => { prev_order with next_idx := next_idx })
        let level1 := match prev_idx with
          | some _ => level
          | none => { level with head_idx := next_idx }
        let poolB := linkWrite poolA next_idx
          (fun next_order => { next_order with prev_idx := prev_idx })
        let level2 := match next_idx with
          | some _ => level1
          | none => { level1 with tail_idx := prev_idx }
        let level3 := { level2 with
          order_count := level2.order_count - 1
          total_qty := level2.total_qty - order_qty }
        let levels' := if level3.order_count = 0 then
            alErase (sideLevels b1 order_side) order_price
          else alInsert (sideLevels b1 order_side) order_price level3
        let b2 := setSideLevels b1 order_side levels'
        let b3 := { b2 with order_pool := poolB.deallocate_by_index pool_idx }
        (some order, b3)

/-- One `add_order` or `cancel_order` call. -/
inductive BookOp
  | add (client_id order_id : Nat) (side : Side) (price : Int) (qty : Nat)
  | cancel (order_id : Nat)
deriving DecidableEq, Repr

/-- Runs a sequence of book operations. -/
def runBook (b : OrderBook) : List BookOp → OrderBook
  | [] => b
  | BookOp.add c o s p q :: ops => runBook (b.add_order c o s p q).2 ops
  | BookOp.cancel o :: ops => runBook (b.cancel_order o).2 ops

/-- C10: cancelling an order id that is not a key of `order_map` returns
`None` and leaves the entire book (level maps, order map, pool and priority
counter) unchanged. -/
theorem C10_cancel_unknown_id_noop (b : OrderBook) (order_id : Nat)
    (h : alLookup b.order_map order_id = none) :
    b.cancel_order order_id = (none, b) := by
  rw [OrderBook.cancel_order, h]

/-- Witness for C10: cancelling id 5 on a fresh book. -/
theorem C10_cancel_unknown_id_noop_witness :
    alLookup (OrderBook.new 1).order_map 5 = none ∧
    (OrderBook.new 1).cancel_order 5 = (none, OrderBook.new 1) :=
  ⟨rfl, C10_cancel_unknown_id_noop (OrderBook.new 1) 5 rfl⟩

/-- C1 (code evaluation at the failing input): after adding order 1 and then
order 2 at the same price 100 on a fresh book, the level's head is the first
slot (65535) and its tail the second slot (65534), the second slot's
`prev_idx` points back at the first, but the first (old tail) slot's
`next_idx` is still `none`: `add_order` never sets the old tail's next link,
so the per-level chain is not a proper doubly-linked list. -/
theorem C1_add_order_never_links_old_tail :
    (alLookup ((((OrderBook.new 1).add_order 7 1 Side.Buy 100 10).2.add_order
        7 2 Side.Buy 100 5).2.bid_levels) 100).map PriceLevel.head_idx =
      some (some 65535) ∧
    (alLookup ((((OrderBook.new 1).add_order 7 1 Side.Buy 100 10).2.add_order
        7 2 Side.Buy 100 5).2.bid_levels) 100).map PriceLevel.tail_idx =
      some (some 65534) ∧
    ((((OrderBook.new 1).add_order 7 1 Side.Buy 100 10).2.add_order
        7 2 Side.Buy 100 5).2.order_pool.get_by_index 65534).map Order.prev_idx =
      some (some 65535) ∧
    ((((OrderBook.new 1).add_order 7 1 Side.Buy 100 10).2.add_order
        7 2 Side.Buy 100 5).2.order_pool.get_by_index 65535).map Order.next_idx =
      some none :=
  ⟨rfl, rfl, rfl, rfl⟩

/-! ### Book accounting invariant (C4)

The invariant ties each price level's aggregate `total_qty` / `order_count`
to the orders reachable through `order_map`, and keeps the pool bookkeeping
(free stack vs. referenced slots) coherent. -/

/-- The (side, price, qty) view of a pool slot's contents. -/
def slotView (stor : List (Nat × Order)) (idx : Nat) : Option (Side × Int × Nat) :=
  (alLookup stor idx).map fun o => (o.side, o.price, o.qty)

/-- Weight of a map entry within the `(s, p)` group. -/
def slotW (f : Side × Int × Nat → Nat) (stor : List (Nat × Order)) (s : Side)
    (p : Int) (e : Nat × Nat) : Nat :=
  match slotView stor e.2 with
  | some v => if v.1 = s ∧ v.2.1 = p then f v else 0
  | none => 0

/-- Weight of a map entry within side `s` (any price). -/
def sideW (f : Side × Int × Nat → Nat) (stor : List (Nat × Order)) (s : Side)
    (e : Nat × Nat) : Nat :=
  match slotView stor e.2 with
  | some v => if v.1 = s then f v else 0
  | none => 0

/-- Sum of `total_qty` over a level map. -/
def levelsTotalQty (L : List (Int × PriceLevel)) : Nat :=
  entSum (fun pl => pl.2.total_qty) L

/-- Sum of `order_count` over a level map. -/
def levelsOrderCount (L : List (Int × PriceLevel)) : Nat :=
  entSum (fun pl => pl.2.order_count) L

theorem entSum_zero {K β : Type} (l : List (K × β)) : entSum (fun _ => 0) l = 0 := by
  induction l with
  | nil => rfl
  | cons hd tl ih => simpa [entSum] using ih

theorem entSum_one {K β : Type} (l : List (K × β)) : entSum (fun _ => 1) l = l.length := by
  induction l with
  | nil => rfl
  | cons hd tl ih =>
    simp only [entSum, List.map_cons, List.sum_cons, List.length_cons] at ih ⊢
    omega

theorem entSum_if_key {K β : Type} [DecidableEq K] {L : List (K × β)}
    (hn : (alKeys L).Nodup) (p : K) (c : Nat) :
    entSum (fun e => if e.1 = p then c else 0) L =
      if (alLookup L p).isSome then c else 0 := by
  induction L with
  | nil => simp [entSum, alLookup]
  | cons hd tl ih =>
    obtain ⟨k0, v0⟩ := hd
    simp only [alKeys, List.map_cons, List.nodup_cons] at hn
    by_cases h0 : k0 = p
    · subst h0
      have hnone : alLookup tl k0 = none := by
        cases hlk : alLookup tl k0 with
        | none => rfl
        | some v =>
          exact absurd (List.mem_map.mpr ⟨_, mem_of_alLookup_eq_some hlk, rfl⟩) hn.1
      rw [entSum_cons]
      simp only [if_pos rfl]
      rw [ih hn.2]
      simp [alLookup, hnone]
    · rw [entSum_cons]
      simp only [if_neg h0]
      rw [ih hn.2]
      simp [alLookup, h0]

/-- The single coupling invariant maintained by `add_order`/`cancel_order`. -/
structure BookInv (b : OrderBook) : Prop where
  free_nodup : b.order_pool.free_list.Nodup
  free_lt : ∀ i ∈ b.order_pool.free_list, i < poolCap
  map_keys_nodup : (alKeys b.order_map).Nodup
  map_idx_nodup : (b.order_map.map Prod.snd).Nodup
  map_idx_lt : ∀ e ∈ b.order_map, e.2 < poolCap
  map_idx_not_free : ∀ e ∈ b.order_map, e.2 ∉ b.order_pool.free_list
  map_stor : ∀ e ∈ b.order_map, (alLookup b.order_pool.storage e.2).isSome
  level_keys_nodup : ∀ s, (alKeys (sideLevels b s)).Nodup
  level_stats : ∀ s p lvl, alLookup (sideLevels b s) p = some lvl →
    lvl.total_qty = entSum (slotW (fun v => v.2.2) b.order_pool.storage s p) b.order_map ∧
    lvl.order_count = entSum (slotW (fun _ => 1) b.order_pool.storage s p) b.order_map ∧
    lvl.order_count ≠ 0
  order_level : ∀ e ∈ b.order_map, ∀ o, alLookup b.order_pool.storage e.2 = some o →
    (alLookup (sideLevels b o.side) o.price).isSome

theorem mem_initFree {n i : Nat} : i ∈ initFree n ↔ i < n := by
  induction n with
  | zero => simp [initFree]
  | succ m ih =>
    simp only [initFree, List.mem_cons, ih]
    omega

theorem initFree_nodup (n : Nat) : (initFree n).Nodup := by
  induction n with
  | zero => simp [initFree]
  | succ m ih =>
    simp only [initFree, List.nodup_cons, mem_initFree]
    exact ⟨by omega, ih⟩

theorem bookInv_new (t : Nat) : BookInv (OrderBook.new t) := by
  refine ⟨initFree_nodup _, ?_, ?_, ?_, ?_, ?_, ?_, ?_, ?_, ?_⟩
  · intro i hi
    exact mem_initFree.mp hi
  · simp [OrderBook.new, alKeys]
  · simp [OrderBook.new]
  · simp [OrderBook.new]
  · simp [OrderBook.new]
  · simp [OrderBook.new]
  · intro s
    cases s <;> simp [OrderBook.new, sideLevels, alKeys]
  · intro s p lvl hl
    cases s <;> simp [OrderBook.new, sideLevels, alLookup] at hl
  · simp [OrderBook.new]

theorem slotView_write_eq {stor : List (Nat × Order)} {k : Nat} {o o' : Order}
    (h : alLookup stor k = some o)
    (hs : o'.side = o.side) (hp : o'.price = o.price) (hq : o'.qty = o.qty) :
    ∀ j, slotView (alInsert stor k o') j = slotView stor j := by
  intro j
  by_cases hj : k = j
  · subst hj
    rw [slotView, alLookup_insert_self, slotView, h]
    simp [hs, hp, hq]
  · rw [slotView, alLookup_insert_ne _ _ _ _ hj, slotView]

theorem alInsert_alInsert {K : Type} [DecidableEq K] {β : Type}
    (l : List (K × β)) (k : K) (v w : β) :
    alInsert (alInsert l k v) k w = alInsert l k w := by
  induction l with
  | nil => simp [alInsert]
  | cons hd tl ih =>
    obtain ⟨k0, v0⟩ := hd
    by_cases h0 : k0 = k
    · simp [alInsert, h0]
    · simp [alInsert, h0, ih]

theorem sideLevels_set_same (b : OrderBook) (s : Side) (L : List (Int × PriceLevel)) :
    sideLevels (setSideLevels b s L) s = L := by
  cases s <;> rfl

theorem sideLevels_set_other (b : OrderBook) {s s' : Side} (L : List (Int × PriceLevel))
    (h : s' ≠ s) : sideLevels (setSideLevels b s L) s' = sideLevels b s' := by
  cases s <;> cases s' <;> first | rfl | exact absurd rfl h

theorem setSideLevels_order_map (b : OrderBook) (s : Side) (L : List (Int × PriceLevel)) :
    (setSideLevels b s L).order_map = b.order_map := by
  cases s <;> rfl

theorem setSideLevels_order_pool (b : OrderBook) (s : Side) (L : List (Int × PriceLevel)) :
    (setSideLevels b s L).order_pool = b.order_pool := by
  cases s <;> rfl

theorem sideLevels_fields_update (b : OrderBook) (m : List (Nat × Nat))
    (pool : MemPool Order poolCap) (np : Nat) (s' : Side) :
    sideLevels { b with order_map := m, order_pool := pool, next_priority := np } s' =
      sideLevels b s' := by
  cases s' <;> rfl

theorem sideLevels_map_update (b : OrderBook) (m : List (Nat × Nat)) (s' : Side) :
    sideLevels { b with order_map := m } s' = sideLevels b s' := by
  cases s' <;> rfl

theorem add_order_success (b : OrderBook) (c oid : Nat) (s : Side) (p : Int) (q : Nat)
    (hdup : alLookup b.order_map oid = none)
    {new_idx : Nat} {rest : List Nat}
    (hfree : b.order_pool.free_list = new_idx :: rest) :
    ∃ (ordF : Order) (level2 : PriceLevel),
      ordF.side = s ∧ ordF.price = p ∧ ordF.qty = q ∧ ordF.order_id = oid ∧
      level2.total_qty = (match alLookup (sideLevels b s) p with
        | some l => l.total_qty
        | none => 0) + q ∧
      level2.order_count = (match alLookup (sideLevels b s) p with
        | some l => l.order_count
        | none => 0) + 1 ∧
      (b.add_order c oid s p q).1 = some new_idx ∧
      (b.add_order c oid s p q).2.order_map = alInsert b.order_map oid new_idx ∧
      (b.add_order c oid s p q).2.order_pool.free_list = rest ∧
      (b.add_order c oid s p q).2.order_pool.storage =
        alInsert b.order_pool.storage new_idx ordF ∧
      sideLevels (b.add_order c oid s p q).2 s = alInsert (sideLevels b s) p level2 ∧
      (∀ s', s' ≠ s → sideLevels (b.add_order c oid s p q).2 s' = sideLevels b s') := by
  rw [OrderBook.add_order, if_neg (by simp [hdup])]
  simp only [MemPool.allocate, hfree]
  rcases hlev : alLookup (sideLevels b s) p with _ | lvl0
  · refine ⟨⟨oid, c, b.ticker_id, s, p, q, b.next_priority, none, none⟩,
      ⟨p, 0 + q, some new_idx, some new_idx, 0 + 1⟩,
      ?_, ?_, ?_, ?_, ?_, ?_, ?_, ?_, ?_, ?_, ?_, ?_⟩
    all_goals try trivial
    all_goals try (intro s' hs'; rw [sideLevels_fields_update, sideLevels_set_other _ _ hs'])
    all_goals simp only [PriceLevel.new, MemPool.write, setSideLevels_order_map,
      setSideLevels_order_pool, alInsert_alInsert]
    all_goals try rfl
    all_goals rw [sideLevels_fields_update, sideLevels_set_same]
  · rcases htail : lvl0.tail_idx with _ | tidx
    · refine ⟨⟨oid, c, b.ticker_id, s, p, q, b.next_priority, none, none⟩,
        ⟨lvl0.price, lvl0.total_qty + q, some new_idx, some new_idx,
          lvl0.order_count + 1⟩,
        ?_, ?_, ?_, ?_, ?_, ?_, ?_, ?_, ?_, ?_, ?_, ?_⟩
      all_goals try trivial
      all_goals try (intro s' hs'; rw [sideLevels_fields_update, sideLevels_set_other _ _ hs'])
      all_goals simp only [MemPool.write, setSideLevels_order_map,
        setSideLevels_order_pool, alInsert_alInsert]
      all_goals try rfl
      all_goals rw [sideLevels_fields_update, sideLevels_set_same]
    · refine ⟨⟨oid, c, b.ticker_id, s, p, q, b.next_priority, some tidx, none⟩,
        ⟨lvl0.price, lvl0.total_qty + q, lvl0.head_idx, some new_idx,
          lvl0.order_count + 1⟩,
        ?_, ?_, ?_, ?_, ?_, ?_, ?_, ?_, ?_, ?_, ?_, ?_⟩
      all_goals try trivial
      all_goals try (intro s' hs'; rw [sideLevels_fields_update, sideLevels_set_other _ _ hs'])
      all_goals simp only [MemPool.write, setSideLevels_order_map,
        setSideLevels_order_pool, alInsert_alInsert]
      all_goals try rfl
      all_goals rw [sideLevels_fields_update, sideLevels_set_same]

theorem get_by_index_lookup {T : Type} {N : Nat} {p : MemPool T N} {i : Nat} {v : T}
    (h : p.get_by_index i = some v) : alLookup p.storage i = some v := by
  rw [MemPool.get_by_index] at h
  split at h
  · exact h
  · simp at h

theorem linkWrite_free_list (pool : MemPool Order poolCap) (target : Option Nat)
    (f : Order → Order) : (linkWrite pool target f).free_list = pool.free_list := by
  rcases target with _ | t
  · rfl
  · rw [linkWrite]
    rcases hg : pool.get_by_index t with _ | v
    · rfl
    · rfl

theorem linkWrite_slotView (pool : MemPool Order poolCap) (target : Option Nat)
    (f : Order → Order)
    (hf : ∀ o : Order, (f o).side = o.side ∧ (f o).price = o.price ∧ (f o).qty = o.qty) :
    ∀ j, slotView (linkWrite pool target f).storage j = slotView pool.storage j := by
  intro j
  rcases target with _ | t
  · rfl
  · rw [linkWrite]
    rcases hg : pool.get_by_index t with _ | v
    · rfl
    · have hl := get_by_index_lookup hg
      exact slotView_write_eq hl (hf v).1 (hf v).2.1 (hf v).2.2 j

theorem sideLevels_pool_update (b : OrderBook) (pool : MemPool Order poolCap) (s' : Side) :
    sideLevels { b with order_pool := pool } s' = sideLevels b s' := by
  cases s' <;> rfl

theorem cancel_order_success (b : OrderBook) (oid : Nat) {idx : Nat}
    (hidx : alLookup b.order_map oid = some idx) (hlt : idx < poolCap)
    {o : Order} (hsto : alLookup b.order_pool.storage idx = some o)
    {lvl : PriceLevel} (hlev : alLookup (sideLevels b o.side) o.price = some lvl) :
    (b.cancel_order oid).1 = some o ∧
    (b.cancel_order oid).2.order_map = alErase b.order_map oid ∧
    (b.cancel_order oid).2.order_pool.free_list = idx :: b.order_pool.free_list ∧
    (∀ j, slotView (b.cancel_order oid).2.order_pool.storage j =
      slotView b.order_pool.storage j) ∧
    (if lvl.order_count - 1 = 0 then
       sideLevels (b.cancel_order oid).2 o.side = alErase (sideLevels b o.side) o.price
     else ∃ lvl3 : PriceLevel, lvl3.total_qty = lvl.total_qty - o.qty ∧
       lvl3.order_count = lvl.order_count - 1 ∧
       sideLevels (b.cancel_order oid).2 o.side =
         alInsert (sideLevels b o.side) o.price lvl3) ∧
    (∀ s', s' ≠ o.side → sideLevels (b.cancel_order oid).2 s' = sideLevels b s') := by
  have hget : MemPool.get_by_index (N := poolCap) b.order_pool idx = some o := by
    rw [MemPool.get_by_index, if_pos hlt, hsto]
  rw [OrderBook.cancel_order, hidx]
  simp only [sideLevels_map_update, hget, hlev]
  rcases hpv : o.prev_idx with _ | pv <;> rcases hnx : o.next_idx with _ | nx <;>
    (refine ⟨?_, ?_, ?_, ?_, ?_, ?_⟩
     · first | rfl | trivial
     · simp only [setSideLevels_order_map, setSideLevels_order_pool]
       try rfl
     · simp only [MemPool.deallocate_by_index, linkWrite_free_list]
       try rfl
     · intro j
       simp only [MemPool.deallocate_by_index]
       rw [linkWrite_slotView, linkWrite_slotView]
       · exact fun v => ⟨rfl, rfl, rfl⟩
       · exact fun v => ⟨rfl, rfl, rfl⟩
     · by_cases hc : lvl.order_count - 1 = 0
       · rw [if_pos hc]
         simp only [sideLevels_pool_update, sideLevels_set_same]
         rw [if_pos hc, sideLevels_map_update]
       · rw [if_neg hc]
         exact ⟨_, rfl, rfl, by
           simp only [sideLevels_pool_update, sideLevels_set_same]
           rw [if_neg hc, sideLevels_map_update]⟩
     · intro s' hs'
       simp only [sideLevels_pool_update]
       rw [sideLevels_set_other _ _ hs', sideLevels_map_update])

theorem nodup_append_single {α : Type} {l : List α} {x : α}
    (hl : l.Nodup) (hx : x ∉ l) : (l ++ [x]).Nodup := by
  induction l with
  | nil => simp
  | cons hd tl ih =>
    simp only [List.nodup_cons] at hl
    simp only [List.mem_cons] at hx
    push_neg at hx
    simp only [List.cons_append, List.nodup_cons]
    refine ⟨?_, ih hl.2 hx.2⟩
    simp only [List.mem_append, List.mem_singleton]
    rintro (h | h)
    · exact hl.1 h
    · exact hx.1 h.symm

theorem alLookup_erase_self {K : Type} [DecidableEq K] {β : Type}
    {l : List (K × β)} {k : K} (hn : (alKeys l).Nodup) :
    alLookup (alErase l k) k = none := by
  cases hlk : alLookup (alErase l k) k with
  | none => rfl
  | some v =>
    exact absurd (mem_of_alLookup_eq_some hlk) (not_mem_alErase_self hn v)

theorem slotW_congr {stor1 stor2 : List (Nat × Order)} (f : Side × Int × Nat → Nat)
    (s : Side) (p : Int) (e : Nat × Nat)
    (h : slotView stor1 e.2 = slotView stor2 e.2) :
    slotW f stor1 s p e = slotW f stor2 s p e := by
  rw [slotW, h, slotW]

theorem sideW_congr {stor1 stor2 : List (Nat × Order)} (f : Side × Int × Nat → Nat)
    (s : Side) (e : Nat × Nat)
    (h : slotView stor1 e.2 = slotView stor2 e.2) :
    sideW f stor1 s e = sideW f stor2 s e := by
  rw [sideW, h, sideW]

theorem isSome_of_slotView_eq {stor1 stor2 : List (Nat × Order)} {j : Nat}
    (h : slotView stor1 j = slotView stor2 j) :
    (alLookup stor1 j).isSome = (alLookup stor2 j).isSome := by
  rw [slotView, slotView] at h
  cases hl1 : alLookup stor1 j <;> cases hl2 : alLookup stor2 j <;>
    rw [hl1, hl2] at h <;> simp_all

theorem fields_of_slotView_eq {stor1 stor2 : List (Nat × Order)} {j : Nat}
    (h : slotView stor1 j = slotView stor2 j) {o1 o2 : Order}
    (h1 : alLookup stor1 j = some o1) (h2 : alLookup stor2 j = some o2) :
    o1.side = o2.side ∧ o1.price = o2.price ∧ o1.qty = o2.qty := by
  rw [slotView, h1, slotView, h2] at h
  have h' : (o1.side, o1.price, o1.qty) = (o2.side, o2.price, o2.qty) := by
    injection h
  refine ⟨congrArg Prod.fst h', ?_, ?_⟩
  · exact congrArg (fun v => v.2.1) h'
  · exact congrArg (fun v => v.2.2) h'

theorem groupSum_zero_of_level_absent {b : OrderBook} (hinv : BookInv b) {s : Side}
    {p : Int} (habs : alLookup (sideLevels b s) p = none)
    (f : Side × Int × Nat → Nat) :
    entSum (slotW f b.order_pool.storage s p) b.order_map = 0 := by
  have hz : ∀ e ∈ b.order_map, slotW f b.order_pool.storage s p e = 0 := by
    intro e he
    cases hl : alLookup b.order_pool.storage e.2 with
    | none => rw [slotW, slotView, hl]; rfl
    | some oe =>
      rw [slotW, slotView, hl]
      show (if oe.side = s ∧ oe.price = p then f (oe.side, oe.price, oe.qty) else 0) = 0
      by_cases hm : oe.side = s ∧ oe.price = p
      · have := hinv.order_level e he oe hl
        rw [hm.1, hm.2, habs] at this
        simp at this
      · rw [if_neg hm]
  rw [entSum_congr hz, entSum_zero]

theorem entSum_append_single {K β : Type} (f : K × β → Nat) (l : List (K × β))
    (x : K × β) : entSum f (l ++ [x]) = entSum f l + f x := by
  simp [entSum]

theorem slotW_lookup_some {stor : List (Nat × Order)} {e : Nat × Nat} {oe : Order}
    (f : Side × Int × Nat → Nat) (s : Side) (p : Int)
    (hl : alLookup stor e.2 = some oe) :
    slotW f stor s p e =
      if oe.side = s ∧ oe.price = p then f (oe.side, oe.price, oe.qty) else 0 := by
  rw [slotW, slotView, hl]
  rfl

theorem bookInv_add (b : OrderBook) (hinv : BookInv b) (c oid : Nat) (s : Side)
    (p : Int) (q : Nat) : BookInv (b.add_order c oid s p q).2 := by
  cases hdup : alLookup b.order_map oid with
  | some v =>
    have heq : b.add_order c oid s p q = (none, b) := by
      rw [OrderBook.add_order, if_pos (by rw [hdup]; rfl)]
    rw [heq]
    exact hinv
  | none =>
    cases hfree : b.order_pool.free_list with
    | nil =>
      have heq : b.add_order c oid s p q = (none, b) := by
        rw [OrderBook.add_order, if_neg (by rw [hdup]; simp)]
        simp only [MemPool.allocate, hfree]
      rw [heq]
      exact hinv
    | cons new_idx rest =>
      obtain ⟨ordF, level2, hFs, hFp, hFq, hFid, hLt, hLc, hfst, hmap, hfreeL,
        hstor, hlvS, hlvO⟩ := add_order_success b c oid s p q hdup hfree
      have hnewfree : new_idx ∈ b.order_pool.free_list := by
        rw [hfree]
        exact List.mem_cons_self ..
      have hnewlt : new_idx < poolCap := hinv.free_lt _ hnewfree
      have hnew_notin_map : ∀ e ∈ b.order_map, e.2 ≠ new_idx := fun e he hne =>
        (hinv.map_idx_not_free e he) (hne ▸ hnewfree)
      have hmap' : (b.add_order c oid s p q).2.order_map =
          b.order_map ++ [(oid, new_idx)] := by
        rw [hmap, alInsert_of_lookup_none _ hdup]
      have hfree_nodup := hinv.free_nodup
      rw [hfree, List.nodup_cons] at hfree_nodup
      have hview : ∀ e ∈ b.order_map,
          slotView (b.add_order c oid s p q).2.order_pool.storage e.2 =
          slotView b.order_pool.storage e.2 := by
        intro e he
        rw [hstor, slotView,
          alLookup_insert_ne _ _ _ _ (fun hx => hnew_notin_map e he hx.symm), slotView]
      have hlook_new : alLookup (b.add_order c oid s p q).2.order_pool.storage new_idx =
          some ordF := by
        rw [hstor, alLookup_insert_self]
      have hgroup : ∀ (f : Side × Int × Nat → Nat) (s' : Side) (p' : Int),
          entSum (slotW f (b.add_order c oid s p q).2.order_pool.storage s' p')
            (b.add_order c oid s p q).2.order_map =
          entSum (slotW f b.order_pool.storage s' p') b.order_map +
            (if s = s' ∧ p = p' then f (s, p, q) else 0) := by
        intro f s' p'
        rw [hmap', entSum_append_single]
        congr 1
        · exact entSum_congr fun e he => slotW_congr f s' p' e (hview e he)
        · rw [slotW_lookup_some f s' p' (e := (oid, new_idx)) hlook_new, hFs, hFp, hFq]
      refine ⟨?_, ?_, ?_, ?_, ?_, ?_, ?_, ?_, ?_, ?_⟩
      · rw [hfreeL]
        exact hfree_nodup.2
      · intro i hi
        rw [hfreeL] at hi
        exact hinv.free_lt i (by rw [hfree]; exact List.mem_cons_of_mem _ hi)
      · rw [hmap]
        exact alKeys_insert_nodup hinv.map_keys_nodup
      · rw [hmap', List.map_append]
        refine nodup_append_single hinv.map_idx_nodup ?_
        intro hmem
        rcases List.mem_map.mp hmem with ⟨e, he, hsnd⟩
        exact hnew_notin_map e he hsnd
      · intro e he
        rw [hmap'] at he
        rcases List.mem_append.mp he with h | h
        · exact hinv.map_idx_lt e h
        · rw [List.mem_singleton.mp h]
          exact hnewlt
      · intro e he
        rw [hmap'] at he
        rw [hfreeL]
        rcases List.mem_append.mp he with h | h
        · exact fun hr =>
            hinv.map_idx_not_free e h (by rw [hfree]; exact List.mem_cons_of_mem _ hr)
        · rw [List.mem_singleton.mp h]
          exact hfree_nodup.1
      · intro e he
        rw [hmap'] at he
        rcases List.mem_append.mp he with h | h
        · rw [hstor]
          exact alLookup_isSome_insert (hinv.map_stor e h) _ _
        · rw [List.mem_singleton.mp h]
          rw [hlook_new]
          rfl
      · intro s'
        by_cases hss : s' = s
        · subst hss
          rw [hlvS]
          exact alKeys_insert_nodup (hinv.level_keys_nodup s')
        · rw [hlvO s' hss]
          exact hinv.level_keys_nodup s'
      · intro s' p' lvl' hl'
        by_cases hss : s' = s
        · subst hss
          rw [hlvS] at hl'
          by_cases hpp : p' = p
          · subst hpp
            rw [alLookup_insert_self] at hl'
            have hlvl' : lvl' = level2 := by
              injection hl'.symm
            subst hlvl'
            rw [hgroup, hgroup, if_pos ⟨rfl, rfl⟩, if_pos ⟨rfl, rfl⟩]
            cases hol : alLookup (sideLevels b s') p' with
            | none =>
              rw [hol] at hLt hLc
              have hLt2 : lvl'.total_qty = 0 + q := hLt
              have hLc2 : lvl'.order_count = 0 + 1 := hLc
              rw [groupSum_zero_of_level_absent hinv hol,
                groupSum_zero_of_level_absent hinv hol]
              exact ⟨hLt2, hLc2, by omega⟩
            | some lvl0 =>
              rw [hol] at hLt hLc
              have hLt2 : lvl'.total_qty = lvl0.total_qty + q := hLt
              have hLc2 : lvl'.order_count = lvl0.order_count + 1 := hLc
              obtain ⟨ht0, hc0, _⟩ := hinv.level_stats s' p' lvl0 hol
              exact ⟨by rw [hLt2, ht0], by rw [hLc2, hc0], by omega⟩
          · rw [alLookup_insert_ne _ _ _ _ (fun hx => hpp hx.symm)] at hl'
            obtain ⟨ht0, hc0, hn0⟩ := hinv.level_stats s' p' lvl' hl'
            have hcond : ¬ (s' = s' ∧ p = p') := fun hx => hpp hx.2.symm
            rw [hgroup, hgroup, if_neg hcond, if_neg hcond]
            exact ⟨by omega, by omega, hn0⟩
        · rw [hlvO s' hss] at hl'
          obtain ⟨ht0, hc0, hn0⟩ := hinv.level_stats s' p' lvl' hl'
          have hcond : ¬ (s = s' ∧ p = p') := fun hx => hss hx.1.symm
          rw [hgroup, hgroup, if_neg hcond, if_neg hcond]
          exact ⟨by omega, by omega, hn0⟩
      · intro e he o' hl'
        rw [hmap'] at he
        rcases List.mem_append.mp he with h | h
        · rw [hstor,
            alLookup_insert_ne _ _ _ _ (fun hx => hnew_notin_map e h hx.symm)] at hl'
          have hold := hinv.order_level e h o' hl'
          by_cases hos : o'.side = s
          · rw [hos, hlvS]
            rw [hos] at hold
            exact alLookup_isSome_insert hold _ _
          · rw [hlvO _ hos]
            exact hold
        · rw [List.mem_singleton.mp h] at hl'
          rw [hlook_new] at hl'
          have ho' : o' = ordF := by injection hl'.symm
          subst ho'
          rw [hFs, hFp, hlvS, alLookup_insert_self]
          rfl
theorem bookInv_cancel (b : OrderBook) (hinv : BookInv b) (oid : Nat) :
    BookInv (b.cancel_order oid).2 := by
  cases hidx : alLookup b.order_map oid with
  | none =>
    have heq : b.cancel_order oid = (none, b) := by
      rw [OrderBook.cancel_order, hidx]
    rw [heq]
    exact hinv
  | some idx =>
    have hmem : (oid, idx) ∈ b.order_map := mem_of_alLookup_eq_some hidx
    have hlt : idx < poolCap := hinv.map_idx_lt _ hmem
    have hsome := hinv.map_stor _ hmem
    cases hsto : alLookup b.order_pool.storage idx with
    | none =>
      rw [hsto] at hsome
      simp at hsome
    | some o =>
    have hlevS := hinv.order_level _ hmem o hsto
    cases hlev : alLookup (sideLevels b o.side) o.price with
    | none =>
      rw [hlev] at hlevS
      simp at hlevS
    | some lvl =>
    obtain ⟨hfst, hmap, hfreeL, hview, hlevcase, hlvO⟩ :=
      cancel_order_success b oid hidx hlt hsto hlev
    have hidx_notfree : idx ∉ b.order_pool.free_list := hinv.map_idx_not_free _ hmem
    have hmem_of : ∀ e ∈ (b.cancel_order oid).2.order_map, e ∈ b.order_map := by
      intro e he
      rw [hmap] at he
      exact mem_of_mem_alErase he
    have hkey_ne : ∀ e ∈ (b.cancel_order oid).2.order_map, e.1 ≠ oid := by
      intro e he hk
      rw [hmap] at he
      have he' : (oid, e.2) = e := by rw [← hk]
      rw [← he'] at he
      exact not_mem_alErase_self hinv.map_keys_nodup e.2 he
    have hidx_ne : ∀ e ∈ (b.cancel_order oid).2.order_map, e.2 ≠ idx := by
      intro e he
      have hne : e ≠ (oid, idx) := fun hx => hkey_ne e he (by rw [hx])
      exact entries_ne_of_snd_nodup hinv.map_idx_nodup (hmem_of e he) hmem hne
    have hgroup : ∀ (f : Side × Int × Nat → Nat) (s' : Side) (p' : Int),
        entSum (slotW f (b.cancel_order oid).2.order_pool.storage s' p')
          (b.cancel_order oid).2.order_map +
          (if o.side = s' ∧ o.price = p' then f (o.side, o.price, o.qty) else 0) =
        entSum (slotW f b.order_pool.storage s' p') b.order_map := by
      intro f s' p'
      rw [hmap,
        entSum_congr (fun e he => slotW_congr f s' p' e (hview e.2)),
        ← slotW_lookup_some f s' p' (e := (oid, idx)) hsto]
      exact entSum_erase_of_lookup_some _ hidx
    have hgq : ∀ (s' : Side) (p' : Int),
        entSum (slotW (fun v => v.2.2) (b.cancel_order oid).2.order_pool.storage s' p')
          (b.cancel_order oid).2.order_map +
          (if o.side = s' ∧ o.price = p' then o.qty else 0) =
        entSum (slotW (fun v => v.2.2) b.order_pool.storage s' p') b.order_map :=
      fun s' p' => hgroup (fun v => v.2.2) s' p'
    have hgc : ∀ (s' : Side) (p' : Int),
        entSum (slotW (fun _ => 1) (b.cancel_order oid).2.order_pool.storage s' p')
          (b.cancel_order oid).2.order_map +
          (if o.side = s' ∧ o.price = p' then 1 else 0) =
        entSum (slotW (fun _ => 1) b.order_pool.storage s' p') b.order_map :=
      fun s' p' => hgroup (fun _ => 1) s' p'
    refine ⟨?_, ?_, ?_, ?_, ?_, ?_, ?_, ?_, ?_, ?_⟩
    · rw [hfreeL, List.nodup_cons]
      exact ⟨hidx_notfree, hinv.free_nodup⟩
    · intro i hi
      rw [hfreeL, List.mem_cons] at hi
      rcases hi with rfl | hi
      · exact hlt
      · exact hinv.free_lt i hi
    · rw [hmap]
      exact (alKeys_erase_sublist _ _).nodup hinv.map_keys_nodup
    · rw [hmap]
      exact (snd_map_erase_sublist _ _).nodup hinv.map_idx_nodup
    · intro e he
      exact hinv.map_idx_lt e (hmem_of e he)
    · intro e he
      rw [hfreeL, List.mem_cons]
      rintro (h | h)
      · exact hidx_ne e he h
      · exact hinv.map_idx_not_free e (hmem_of e he) h
    · intro e he
      rw [isSome_of_slotView_eq (hview e.2)]
      exact hinv.map_stor e (hmem_of e he)
    · intro s'
      by_cases hss : s' = o.side
      · subst hss
        by_cases hc : lvl.order_count - 1 = 0
        · rw [if_pos hc] at hlevcase
          rw [hlevcase]
          exact (alKeys_erase_sublist _ _).nodup (hinv.level_keys_nodup o.side)
        · rw [if_neg hc] at hlevcase
          obtain ⟨lvl3, hT3, hC3, hS3⟩ := hlevcase
          rw [hS3]
          exact alKeys_insert_nodup (hinv.level_keys_nodup o.side)
      · rw [hlvO s' hss]
        exact hinv.level_keys_nodup s'
    · intro s' p' lvl' hl'
      by_cases hss : s' = o.side
      · subst hss
        by_cases hc : lvl.order_count - 1 = 0
        · rw [if_pos hc] at hlevcase
          rw [hlevcase] at hl'
          by_cases hpp : p' = o.price
          · subst hpp
            rw [alLookup_erase_self (hinv.level_keys_nodup o.side)] at hl'
            simp at hl'
          · rw [alLookup_erase_ne _ _ _ (fun hx => hpp hx.symm)] at hl'
            obtain ⟨ht0, hc0, hn0⟩ := hinv.level_stats o.side p' lvl' hl'
            have hcond : ¬ (o.side = o.side ∧ o.price = p') := fun hx => hpp hx.2.symm
            have hq1 := hgq o.side p'
            have hc1 := hgc o.side p'
            rw [if_neg hcond] at hq1 hc1
            exact ⟨by omega, by omega, hn0⟩
        · rw [if_neg hc] at hlevcase
          obtain ⟨lvl3, hT3, hC3, hS3⟩ := hlevcase
          rw [hS3] at hl'
          by_cases hpp : p' = o.price
          · subst hpp
            rw [alLookup_insert_self] at hl'
            have hlvl' : lvl' = lvl3 := by injection hl'.symm
            subst hlvl'
            obtain ⟨htL, hcL, hnL⟩ := hinv.level_stats o.side o.price lvl hlev
            have hq1 := hgq o.side o.price
            have hc1 := hgc o.side o.price
            rw [if_pos ⟨rfl, rfl⟩] at hq1 hc1
            exact ⟨by omega, by omega, by omega⟩
          · rw [alLookup_insert_ne _ _ _ _ (fun hx => hpp hx.symm)] at hl'
            obtain ⟨ht0, hc0, hn0⟩ := hinv.level_stats o.side p' lvl' hl'
            have hcond : ¬ (o.side = o.side ∧ o.price = p') := fun hx => hpp hx.2.symm
            have hq1 := hgq o.side p'
            have hc1 := hgc o.side p'
            rw [if_neg hcond] at hq1 hc1
            exact ⟨by omega, by omega, hn0⟩
      · rw [hlvO s' hss] at hl'
        obtain ⟨ht0, hc0, hn0⟩ := hinv.level_stats s' p' lvl' hl'
        have hcond : ¬ (o.side = s' ∧ o.price = p') := fun hx => hss hx.1.symm
        have hq1 := hgq s' p'
        have hc1 := hgc s' p'
        rw [if_neg hcond] at hq1 hc1
        exact ⟨by omega, by omega, hn0⟩
    · intro e he o' hl'
      have he2 : e ∈ alErase b.order_map oid := by
        rw [← hmap]
        exact he
      have hbsome : (alLookup b.order_pool.storage e.2).isSome := by
        rw [← isSome_of_slotView_eq (hview e.2), hl']
        rfl
      obtain ⟨o2, hlk2⟩ := Option.isSome_iff_exists.mp hbsome
      obtain ⟨hs2, hp2, _⟩ := fields_of_slotView_eq (hview e.2) hl' hlk2
      have hbl := hinv.order_level e (hmem_of e he) o2 hlk2
      rw [hs2, hp2]
      by_cases hos : o2.side = o.side
      · rw [hos] at hbl ⊢
        by_cases hc : lvl.order_count - 1 = 0
        · rw [if_pos hc] at hlevcase
          rw [hlevcase]
          by_cases hpq : o2.price = o.price
          · exfalso
            obtain ⟨_, hcL, _⟩ := hinv.level_stats o.side o.price lvl hlev
            have hsplit := entSum_erase_of_lookup_some
              (slotW (fun _ => 1) b.order_pool.storage o.side o.price) hidx
            have h1 : slotW (fun _ => 1) b.order_pool.storage o.side o.price (oid, idx)
                = 1 := by
              rw [slotW_lookup_some _ _ _ (e := (oid, idx)) hsto, if_pos ⟨rfl, rfl⟩]
            have h2 : slotW (fun _ => 1) b.order_pool.storage o.side o.price e = 1 := by
              rw [slotW_lookup_some _ _ _ hlk2, if_pos ⟨hos, hpq⟩]
            have h3 := le_entSum_of_mem
              (f := slotW (fun _ => 1) b.order_pool.storage o.side o.price) he2
            omega
          · rw [alLookup_erase_ne _ _ _ (fun hx => hpq hx.symm)]
            exact hbl
        · rw [if_neg hc] at hlevcase
          obtain ⟨lvl3, _, _, hS3⟩ := hlevcase
          rw [hS3]
          exact alLookup_isSome_insert hbl _ _
      · rw [hlvO _ hos]
        exact hbl
theorem bookInv_runBook (b : OrderBook) (hinv : BookInv b) (ops : List BookOp) :
    BookInv (runBook b ops) := by
  induction ops generalizing b with
  | nil => exact hinv
  | cons op ops ih =>
    cases op with
    | add c o s p q => exact ih _ (bookInv_add b hinv c o s p q)
    | cancel o => exact ih _ (bookInv_cancel b hinv o)

theorem sideW_lookup_some {stor : List (Nat × Order)} {e : Nat × Nat} {oe : Order}
    (f : Side × Int × Nat → Nat) (s : Side)
    (hl : alLookup stor e.2 = some oe) :
    sideW f stor s e = if oe.side = s then f (oe.side, oe.price, oe.qty) else 0 := by
  rw [sideW, slotView, hl]
  rfl

theorem slotW_levels_sum {b : OrderBook} (hinv : BookInv b)
    (f : Side × Int × Nat → Nat) (s : Side) {e : Nat × Nat} (he : e ∈ b.order_map) :
    entSum (fun pl => slotW f b.order_pool.storage s pl.1 e) (sideLevels b s) =
      sideW f b.order_pool.storage s e := by
  have hs := hinv.map_stor e he
  cases hl : alLookup b.order_pool.storage e.2 with
  | none =>
    rw [hl] at hs
    simp at hs
  | some o =>
    rw [sideW_lookup_some f s hl]
    by_cases hside : o.side = s
    · have hlev := hinv.order_level e he o hl
      rw [hside] at hlev
      have h1 : ∀ pl ∈ sideLevels b s,
          slotW f b.order_pool.storage s pl.1 e =
            (if pl.1 = o.price then f (o.side, o.price, o.qty) else 0) := by
        intro pl _
        rw [slotW_lookup_some f s pl.1 hl]
        by_cases hp : pl.1 = o.price
        · rw [if_pos ⟨hside, hp.symm⟩, if_pos hp]
        · rw [if_neg (fun hx => hp hx.2.symm), if_neg hp]
      calc entSum (fun pl => slotW f b.order_pool.storage s pl.1 e) (sideLevels b s)
          = entSum (fun pl : Int × PriceLevel =>
              if pl.1 = o.price then f (o.side, o.price, o.qty) else 0)
              (sideLevels b s) := entSum_congr h1
        _ = if (alLookup (sideLevels b s) o.price).isSome then
              f (o.side, o.price, o.qty) else 0 :=
            entSum_if_key (hinv.level_keys_nodup s) o.price _
        _ = f (o.side, o.price, o.qty) := by rw [if_pos hlev]
        _ = if o.side = s then f (o.side, o.price, o.qty) else 0 := by rw [if_pos hside]
    · have h1 : ∀ pl ∈ sideLevels b s,
          slotW f b.order_pool.storage s pl.1 e = (0 : Nat) := by
        intro pl _
        rw [slotW_lookup_some f s pl.1 hl, if_neg (fun hx => hside hx.1)]
      calc entSum (fun pl => slotW f b.order_pool.storage s pl.1 e) (sideLevels b s)
          = entSum (fun _ : Int × PriceLevel => 0) (sideLevels b s) := entSum_congr h1
        _ = 0 := entSum_zero _
        _ = if o.side = s then f (o.side, o.price, o.qty) else 0 := by rw [if_neg hside]

theorem levels_sum_partition {b : OrderBook} (hinv : BookInv b) (g : PriceLevel → Nat)
    (f : Side × Int × Nat → Nat) (s : Side)
    (hstats : ∀ p lvl, alLookup (sideLevels b s) p = some lvl →
      g lvl = entSum (slotW f b.order_pool.storage s p) b.order_map) :
    entSum (fun pl => g pl.2) (sideLevels b s) =
      entSum (sideW f b.order_pool.storage s) b.order_map := by
  have h1 : ∀ pl ∈ sideLevels b s,
      g pl.2 = entSum (slotW f b.order_pool.storage s pl.1) b.order_map := by
    intro pl hpl
    exact hstats pl.1 pl.2 (alLookup_eq_some_of_mem (hinv.level_keys_nodup s) hpl)
  calc entSum (fun pl => g pl.2) (sideLevels b s)
      = entSum (fun pl => entSum (slotW f b.order_pool.storage s pl.1) b.order_map)
          (sideLevels b s) := entSum_congr h1
    _ = entSum (fun e => entSum (fun pl => slotW f b.order_pool.storage s pl.1 e)
          (sideLevels b s)) b.order_map :=
        entSum_swap (sideLevels b s) b.order_map
          (fun pl e => slotW f b.order_pool.storage s pl.1 e)
    _ = entSum (sideW f b.order_pool.storage s) b.order_map :=
        entSum_congr (fun e he => slotW_levels_sum hinv f s he)

theorem sideQty_partition {b : OrderBook} (hinv : BookInv b) (s : Side) :
    levelsTotalQty (sideLevels b s) =
      entSum (sideW (fun v => v.2.2) b.order_pool.storage s) b.order_map :=
  levels_sum_partition hinv (fun lvl => lvl.total_qty) (fun v => v.2.2) s
    (fun p lvl hl => (hinv.level_stats s p lvl hl).1)

theorem sideCount_partition {b : OrderBook} (hinv : BookInv b) (s : Side) :
    levelsOrderCount (sideLevels b s) =
      entSum (sideW (fun _ => 1) b.order_pool.storage s) b.order_map :=
  levels_sum_partition hinv (fun lvl => lvl.order_count) (fun _ => 1) s
    (fun p lvl hl => (hinv.level_stats s p lvl hl).2.1)

theorem count_partition {b : OrderBook} (hinv : BookInv b) :
    b.order_map.length =
      levelsOrderCount (sideLevels b Side.Buy) +
        levelsOrderCount (sideLevels b Side.Sell) := by
  rw [sideCount_partition hinv Side.Buy, sideCount_partition hinv Side.Sell,
    ← entSum_add]
  have h1 : ∀ e ∈ b.order_map,
      sideW (fun _ => 1) b.order_pool.storage Side.Buy e +
        sideW (fun _ => 1) b.order_pool.storage Side.Sell e = (fun _ => 1) e := by
    intro e he
    have hs := hinv.map_stor e he
    cases hl : alLookup b.order_pool.storage e.2 with
    | none =>
      rw [hl] at hs
      simp at hs
    | some o =>
      rw [sideW_lookup_some _ _ hl, sideW_lookup_some _ _ hl]
      cases hos : o.side <;> simp
  rw [entSum_congr h1, entSum_one]

theorem level_exists_iff {b : OrderBook} (hinv : BookInv b) (s : Side) (p : Int) :
    (alLookup (sideLevels b s) p).isSome ↔
      0 < entSum (slotW (fun _ => 1) b.order_pool.storage s p) b.order_map := by
  constructor
  · intro h
    cases hl : alLookup (sideLevels b s) p with
    | none =>
      rw [hl] at h
      simp at h
    | some lvl =>
      obtain ⟨_, hc, hn⟩ := hinv.level_stats s p lvl hl
      omega
  · intro h
    cases hl : alLookup (sideLevels b s) p with
    | none =>
      rw [groupSum_zero_of_level_absent hinv hl] at h
      omega
    | some lvl => rfl

/-- C4: after every sequence of `add_order`/`cancel_order` calls starting from a
fresh book, on each side the sum of `level.total_qty` over that side's levels
equals the sum of `order.qty` over the orders referenced by `order_map` whose
side matches; the number of `order_map` entries equals the sum of
`level.order_count` over both sides; a price level exists in a side map iff at
least one mapped order lives at that side and price, and every present level
has `order_count > 0`. -/
theorem C4_book_accounting (t : Nat) (ops : List BookOp) :
    (∀ s : Side, levelsTotalQty (sideLevels (runBook (OrderBook.new t) ops) s) =
      entSum (sideW (fun v => v.2.2)
          (runBook (OrderBook.new t) ops).order_pool.storage s)
        (runBook (OrderBook.new t) ops).order_map) ∧
    (runBook (OrderBook.new t) ops).order_map.length =
      levelsOrderCount (sideLevels (runBook (OrderBook.new t) ops) Side.Buy) +
        levelsOrderCount (sideLevels (runBook (OrderBook.new t) ops) Side.Sell) ∧
    (∀ (s : Side) (p : Int),
      (alLookup (sideLevels (runBook (OrderBook.new t) ops) s) p).isSome ↔
        0 < entSum (slotW (fun _ => 1)
            (runBook (OrderBook.new t) ops).order_pool.storage s p)
          (runBook (OrderBook.new t) ops).order_map) ∧
    (∀ (s : Side) (p : Int) (lvl : PriceLevel),
      alLookup (sideLevels (runBook (OrderBook.new t) ops) s) p = some lvl →
        0 < lvl.order_count) := by
  have hinv := bookInv_runBook (OrderBook.new t) (bookInv_new t) ops
  refine ⟨fun s => sideQty_partition hinv s, count_partition hinv,
    fun s p => level_exists_iff hinv s p, fun s p lvl hl => ?_⟩
  have := (hinv.level_stats s p lvl hl).2.2
  omega
/-- `MatchingEngine` (`matching_engine.rs`): order books keyed by ticker id and
the exchange-assigned order-id counter. -/
structure MatchingEngine where
  order_books : List (Nat × OrderBook)
  next_order_id : Nat
deriving DecidableEq, Repr

/-- `MatchingEngine::new`: no books, counter starts at 1. -/
def MatchingEngine.new : MatchingEngine :=
  ⟨[], 1⟩

/-- `MatchingEngine::add_ticker`: create a fresh book for the ticker unless it
already exists. -/
def MatchingEngine.add_ticker (m : MatchingEngine) (ticker_id : Nat) :
    MatchingEngine :=
  match alLookup m.order_books ticker_id with
  | some _ => m
  | none =>
    { m with order_books :=
        alInsert m.order_books ticker_id (OrderBook.new ticker_id) }

/-- `MatchingEngine::create_reject_response`: `InvalidRequest` with no market
order id and no updates. -/
def MatchingEngine.create_reject_response (client_id ticker_id client_order_id :
    Nat) (side : Int) (price : Int) (qty : Nat) :
    ClientResponse × List MarketUpdate :=
  (⟨5, client_id, ticker_id, client_order_id, 0, side, price, 0, qty⟩, [])

/-- `MatchingEngine::create_cancel_reject_response`: `CancelRejected` with no
market order id, zero quantities and no updates. -/
def MatchingEngine.create_cancel_reject_response (client_id ticker_id order_id :
    Nat) (side : Int) (price : Int) : ClientResponse × List MarketUpdate :=
  (⟨4, client_id, ticker_id, order_id, 0, side, price, 0, 0⟩, [])

/-- `MatchingEngine::handle_new_order`: validate ticker and side, consume a
fresh market order id, add to the book, and answer `Accepted` plus one `Add`
update on success, `InvalidRequest` otherwise. -/
def MatchingEngine.handle_new_order (m : MatchingEngine)
    (request : ClientRequest) :
    (ClientResponse × List MarketUpdate) × MatchingEngine :=
  match alLookup m.order_books request.ticker_id with
  | none =>
    (MatchingEngine.create_reject_response request.client_id request.ticker_id
      request.order_id request.side request.price request.qty, m)
  | some order_book =>
    match (if request.side = 1 then some Side.Buy
           else if request.side = -1 then some Side.Sell else none) with
    | none =>
      (MatchingEngine.create_reject_response request.client_id request.ticker_id
        request.order_id request.side request.price request.qty, m)
    | some side =>
      let market_order_id := m.next_order_id
      let result := order_book.add_order request.client_id market_order_id side
        request.price request.qty
      let m1 : MatchingEngine :=
        ⟨alInsert m.order_books request.ticker_id result.2, m.next_order_id + 1⟩
      match result.1 with
      | some _ =>
        ((⟨1, request.client_id, request.ticker_id, request.order_id,
            market_order_id, request.side, request.price, 0, request.qty⟩,
          [⟨1, request.ticker_id, market_order_id, request.side, request.price,
            request.qty, market_order_id⟩]), m1)
      | none =>
        (MatchingEngine.create_reject_response request.client_id
          request.ticker_id request.order_id request.side request.price
          request.qty, m1)

/-- `MatchingEngine::handle_cancel`: validate ticker, cancel in the book, and
answer `Canceled` (side/price/qty echoed from the removed order) plus one
`Cancel` update on success, `CancelRejected` otherwise. -/
def MatchingEngine.handle_cancel (m : MatchingEngine) (request : ClientRequest) :
    (ClientResponse × List MarketUpdate) × MatchingEngine :=
  match alLookup m.order_books request.ticker_id with
  | none =>
    (MatchingEngine.create_cancel_reject_response request.client_id
      request.ticker_id request.order_id request.side request.price, m)
  | some order_book =>
    let result := order_book.cancel_order request.order_id
    let m1 : MatchingEngine :=
      ⟨alInsert m.order_books request.ticker_id result.2, m.next_order_id⟩
    match result.1 with
    | some canceled_order =>
      ((⟨2, request.client_id, request.ticker_id, request.order_id,
          request.order_id, canceled_order.side.sign, canceled_order.price, 0,
          canceled_order.qty⟩,
        [⟨3, request.ticker_id, request.order_id, canceled_order.side.sign,
          canceled_order.price, canceled_order.qty, canceled_order.priority⟩]),
       m1)
    | none =>
      (MatchingEngine.create_cancel_reject_response request.client_id
        request.ticker_id request.order_id request.side request.price, m1)

/-- `MatchingEngine::handle_invalid_request`: `InvalidRequest`, no updates, no
state change. -/
def MatchingEngine.handle_invalid_request (m : MatchingEngine)
    (request : ClientRequest) :
    (ClientResponse × List MarketUpdate) × MatchingEngine :=
  ((⟨5, request.client_id, request.ticker_id, request.order_id, 0, request.side,
      request.price, 0, request.qty⟩, []), m)

/-- `MatchingEngine::process_request`: dispatch on `msg_type`
(`1 = New`, `2 = Cancel`, anything else is invalid). -/
def MatchingEngine.process_request (m : MatchingEngine)
    (request : ClientRequest) :
    (ClientResponse × List MarketUpdate) × MatchingEngine :=
  if request.msg_type = 1 then m.handle_new_order request
  else if request.msg_type = 2 then m.handle_cancel request
  else m.handle_invalid_request request
/-- C2: for a `New` request (`msg_type = 1`): with an unknown ticker, or a side
outside `{+1, -1}`, `process_request` answers `InvalidRequest` with
`market_order_id = 0` and no updates, leaving the engine unchanged; with a
known ticker, a side of `+1` (Buy) or `-1` (Sell) and a successful
`add_order`, it answers `Accepted` with `market_order_id` the freshly
consumed id, `exec_qty = 0`, `leaves_qty = qty`, plus exactly one `Add`
update `(ticker, market_order_id, side, price, qty, priority =
market_order_id)`, and bumps the counter.  Concretely, scenario S1 (New Buy
`(client 100, ticker 1, oid 12345, +1, 10050, 100)` against a fresh engine
with ticker 1 registered) yields `Accepted` with `market_oid = 1`,
`exec = 0`, `leaves = 100`, one `Add` delta `(1, 1, +1, 10050, 100,
priority 1)`, and the next order id becomes 2. -/
theorem C2_new_order_handling (m : MatchingEngine) (req : ClientRequest)
    (hmsg : req.msg_type = 1) :
    (alLookup m.order_books req.ticker_id = none →
      m.process_request req =
        ((⟨5, req.client_id, req.ticker_id, req.order_id, 0, req.side, req.price,
            0, req.qty⟩, []), m)) ∧
    (∀ book, alLookup m.order_books req.ticker_id = some book →
      req.side ≠ 1 → req.side ≠ -1 →
      m.process_request req =
        ((⟨5, req.client_id, req.ticker_id, req.order_id, 0, req.side, req.price,
            0, req.qty⟩, []), m)) ∧
    (∀ book (s : Side), alLookup m.order_books req.ticker_id = some book →
      ((req.side = 1 ∧ s = Side.Buy) ∨ (req.side = -1 ∧ s = Side.Sell)) →
      (book.add_order req.client_id m.next_order_id s req.price req.qty).1.isSome →
      m.process_request req =
        ((⟨1, req.client_id, req.ticker_id, req.order_id, m.next_order_id,
            req.side, req.price, 0, req.qty⟩,
          [⟨1, req.ticker_id, m.next_order_id, req.side, req.price, req.qty,
            m.next_order_id⟩]),
         ⟨alInsert m.order_books req.ticker_id
            (book.add_order req.client_id m.next_order_id s req.price req.qty).2,
          m.next_order_id + 1⟩)) ∧
    ((MatchingEngine.new.add_ticker 1).process_request
        ⟨1, 100, 1, 12345, 1, 10050, 100⟩ =
      ((⟨1, 100, 1, 12345, 1, 1, 10050, 0, 100⟩,
        [⟨1, 1, 1, 1, 10050, 100, 1⟩]),
       ⟨[(1, ((OrderBook.new 1).add_order 100 1 Side.Buy 10050 100).2)], 2⟩)) := by
  refine ⟨?_, ?_, ?_, ?_⟩
  · intro hb
    rw [MatchingEngine.process_request, if_pos hmsg]
    rw [MatchingEngine.handle_new_order, hb]
    rfl
  · intro book hb h1 h2
    rw [MatchingEngine.process_request, if_pos hmsg]
    rw [MatchingEngine.handle_new_order, hb]
    rw [if_neg h1, if_neg h2]
    rfl
  · intro book s hb hside hsucc
    rw [MatchingEngine.process_request, if_pos hmsg]
    rw [MatchingEngine.handle_new_order, hb]
    obtain ⟨idx, hidx⟩ := Option.isSome_iff_exists.mp hsucc
    rcases hside with ⟨h1, rfl⟩ | ⟨h1, rfl⟩
    · rw [h1, if_pos rfl]
      simp only [hidx]
    · rw [h1, if_neg (by decide), if_pos rfl]
      simp only [hidx]
  · rfl
theorem C2_new_order_handling_witness :
    (⟨1, 100, 1, 12345, 1, 10050, 100⟩ : ClientRequest).msg_type = 1 ∧
    (MatchingEngine.new.add_ticker 1).process_request
        ⟨1, 100, 1, 12345, 1, 10050, 100⟩ =
      ((⟨1, 100, 1, 12345, 1, 1, 10050, 0, 100⟩,
        [⟨1, 1, 1, 1, 10050, 100, 1⟩]),
       ⟨[(1, ((OrderBook.new 1).add_order 100 1 Side.Buy 10050 100).2)], 2⟩) :=
  ⟨rfl, (C2_new_order_handling (MatchingEngine.new.add_ticker 1)
    ⟨1, 100, 1, 12345, 1, 10050, 100⟩ rfl).2.2.2⟩
/-- C3: for a `Cancel` request (`msg_type = 2`): with an unknown ticker the
answer is `CancelRejected` with no updates and an unchanged engine; with a
known ticker whose book does not map `order_id` (hence also on a second cancel
of the same id) the answer is `CancelRejected` with no updates; with a known,
invariant-satisfying book that does map `order_id`, the answer is `Canceled`
echoing the removed order's side, price and remaining qty (not the request's
fields), with `leaves_qty = canceled.qty`, plus exactly one `Cancel` update
`(ticker, order_id, canceled.side, canceled.price, canceled.qty,
canceled.priority)`. -/
theorem C3_cancel_handling (m : MatchingEngine) (req : ClientRequest)
    (hmsg : req.msg_type = 2) :
    (alLookup m.order_books req.ticker_id = none →
      m.process_request req =
        ((⟨4, req.client_id, req.ticker_id, req.order_id, 0, req.side, req.price,
            0, 0⟩, []), m)) ∧
    (∀ book, alLookup m.order_books req.ticker_id = some book →
      alLookup book.order_map req.order_id = none →
      m.process_request req =
        ((⟨4, req.client_id, req.ticker_id, req.order_id, 0, req.side, req.price,
            0, 0⟩, []),
         ⟨alInsert m.order_books req.ticker_id book, m.next_order_id⟩)) ∧
    (∀ book, alLookup m.order_books req.ticker_id = some book → BookInv book →
      (alLookup book.order_map req.order_id).isSome →
      ∃ o : Order, (book.cancel_order req.order_id).1 = some o ∧
        m.process_request req =
          ((⟨2, req.client_id, req.ticker_id, req.order_id, req.order_id,
              o.side.sign, o.price, 0, o.qty⟩,
            [⟨3, req.ticker_id, req.order_id, o.side.sign, o.price, o.qty,
              o.priority⟩]),
           ⟨alInsert m.order_books req.ticker_id (book.cancel_order req.order_id).2,
            m.next_order_id⟩)) := by
  have hm2 : req.msg_type ≠ 1 := by omega
  refine ⟨?_, ?_, ?_⟩
  · intro hb
    rw [MatchingEngine.process_request, if_neg hm2, if_pos hmsg]
    rw [MatchingEngine.handle_cancel, hb]
    rfl
  · intro book hb hnone
    rw [MatchingEngine.process_request, if_neg hm2, if_pos hmsg]
    rw [MatchingEngine.handle_cancel, hb]
    have hcan : book.cancel_order req.order_id = (none, book) := by
      rw [OrderBook.cancel_order, hnone]
    simp only [hcan]
    rfl
  · intro book hb hinv hsome
    obtain ⟨idx, hidx⟩ := Option.isSome_iff_exists.mp hsome
    have hmem : (req.order_id, idx) ∈ book.order_map := mem_of_alLookup_eq_some hidx
    have hlt : idx < poolCap := hinv.map_idx_lt _ hmem
    have hstoS := hinv.map_stor _ hmem
    cases hsto : alLookup book.order_pool.storage idx with
    | none =>
      rw [hsto] at hstoS
      simp at hstoS
    | some o =>
    have hlevS := hinv.order_level _ hmem o hsto
    cases hlev : alLookup (sideLevels book o.side) o.price with
    | none =>
      rw [hlev] at hlevS
      simp at hlevS
    | some lvl =>
    obtain ⟨hfst, _, _, _, _, _⟩ := cancel_order_success book req.order_id hidx hlt hsto hlev
    refine ⟨o, hfst, ?_⟩
    rw [MatchingEngine.process_request, if_neg hm2, if_pos hmsg]
    rw [MatchingEngine.handle_cancel, hb]
    simp only [hfst]
theorem C3_cancel_handling_witness :
    ((⟨[(1, ((OrderBook.new 1).add_order 100 1 Side.Buy 10050 100).2)], 2⟩ :
        MatchingEngine).process_request ⟨2, 100, 1, 1, 1, 10050, 0⟩).1 =
      (⟨2, 100, 1, 1, 1, 1, 10050, 0, 100⟩, [⟨3, 1, 1, 1, 10050, 100, 1⟩]) ∧
    ((⟨[(1, (((OrderBook.new 1).add_order 100 1 Side.Buy 10050 100).2.cancel_order
          1).2)], 2⟩ :
        MatchingEngine).process_request ⟨2, 100, 1, 1, 1, 10050, 0⟩).1 =
      (⟨4, 100, 1, 1, 0, 1, 10050, 0, 0⟩, []) := by
  constructor
  · obtain ⟨o, ho, hres⟩ :=
      (C3_cancel_handling
        ⟨[(1, ((OrderBook.new 1).add_order 100 1 Side.Buy 10050 100).2)], 2⟩
        ⟨2, 100, 1, 1, 1, 10050, 0⟩ rfl).2.2
        ((OrderBook.new 1).add_order 100 1 Side.Buy 10050 100).2 rfl
        (bookInv_add (OrderBook.new 1) (bookInv_new 1) 100 1 Side.Buy 10050 100)
        (by rfl)
    have ho2 : some (⟨1, 100, 1, Side.Buy, 10050, 100, 1, none, none⟩ : Order) =
        some o := by
      rw [← ho]
      rfl
    obtain rfl : o = ⟨1, 100, 1, Side.Buy, 10050, 100, 1, none, none⟩ :=
      (Option.some.inj ho2).symm
    rw [hres]
    rfl
  · exact congrArg Prod.fst
      ((C3_cancel_handling
        ⟨[(1, (((OrderBook.new 1).add_order 100 1 Side.Buy 10050 100).2.cancel_order
          1).2)], 2⟩
        ⟨2, 100, 1, 1, 1, 10050, 0⟩ rfl).2.1
        (((OrderBook.new 1).add_order 100 1 Side.Buy 10050 100).2.cancel_order 1).2
        rfl rfl)
